import Mathlib

/-!
# Verification of the variable-mover plugin core (src/code.js)

Shallow embedding of the plugin's data model and operations.  The host
document is a `Doc` (collections, variables, nodes); asynchronous host
calls that may fail are modelled by an `Oracle` of boolean outcomes;
JavaScript objects used as string-keyed maps are modelled as association
lists in insertion order (`assocGet`/`assocSet`), matching the
enumeration-order guarantee of `Object.keys` for string keys.
-/

namespace VariableMover

/-- A mode of a variable collection (`{modeId, name}`). -/
structure Mode where
  modeId : String
  name : String
deriving Repr, DecidableEq

/-- A value held by a variable at one mode: either a literal payload
(color/number/string/boolean, opaque here) or a variable alias
(`{type: 'VARIABLE_ALIAS', id}`). -/
inductive Value where
  | lit (payload : String)
  | varAlias (id : String)
deriving Repr, DecidableEq

/-- A variable (`Variable` in the host API).  `valuesByMode` is a
string-keyed object, modelled as an association list in insertion
order; `codeSyntaxEntries` models the `codeSyntax` object. -/
structure Variable where
  id : String
  name : String
  resolvedType : String
  description : String
  hiddenFromPublishing : Bool
  scopes : List String
  codeSyntaxEntries : List (String × String)
  valuesByMode : List (String × Value)
deriving Repr, DecidableEq

/-- A variable collection: ordered modes plus the ids of its variables. -/
structure VariableCollection where
  id : String
  name : String
  modes : List Mode
  variableIds : List String
deriving Repr, DecidableEq

/-- One entry of a list-valued bindable property (a paint or effect);
`boundColorId` is the variable bound to its `color` field. -/
structure BoundEntry where
  boundColorId : Option String
  payload : String
deriving Repr, DecidableEq

/-- The binding recorded in `node.boundVariables` for one property:
a single reference or an ordered sequence of references. -/
inductive PropBinding where
  | single (id : String)
  | many (ids : List String)
deriving Repr, DecidableEq

/-- A document node carrying bound-variable metadata.
`hasSetBoundVariable` models the `'setBoundVariable' in node`
capability check; `fills`/`strokes`/`effects` are `none` when the
property is absent on the node (or not an array). -/
structure Node where
  id : String
  name : String
  hasSetBoundVariable : Bool
  boundVariables : List (String × PropBinding)
  fills : Option (List BoundEntry)
  strokes : Option (List BoundEntry)
  effects : Option (List BoundEntry)
deriving Repr, DecidableEq

/-- The live document: the host state the plugin reads and mutates. -/
structure Doc where
  collections : List VariableCollection
  allVariables : List Variable
  nodes : List Node
deriving Repr, DecidableEq

/-- Outcomes of host calls that can fail, per item: whether Phase 1
creation succeeds for an original id, the fresh id the host assigns to
the shell, whether the Phase 2 copy call for an original id throws, and
whether the host mutation inside a rebind (keyed by node index and
property) succeeds. -/
structure Oracle where
  createOk : String → Bool
  newIdOf : String → String
  copyOk : String → Bool
  rebindOk : Nat → String → Bool

/-- Lookup in a JS object modelled as an association list
(first match; keys are unique in a JS object). -/
def assocGet {α : Type} (m : List (String × α)) (k : String) : Option α :=
  (m.find? (fun p => p.1 == k)).map Prod.snd

/-- Assignment `obj[k] = v` on a JS object modelled as an association list:
overwrite an existing key in place, otherwise append (insertion order). -/
def assocSet {α : Type} (m : List (String × α)) (k : String) (v : α) : List (String × α) :=
  if (m.map Prod.fst).contains k then
    m.map (fun p => if p.1 == k then (k, v) else p)
  else m ++ [(k, v)]

/-- Host call `figma.variables.getVariableByIdAsync`. -/
def Doc.getVariableById (doc : Doc) (variableId : String) : Option Variable :=
  doc.allVariables.find? (fun v => v.id == variableId)

/-- Host call `figma.variables.getVariableCollectionByIdAsync`. -/
def Doc.getCollectionById (doc : Doc) (collectionId : String) : Option VariableCollection :=
  doc.collections.find? (fun c => c.id == collectionId)

/-- HELPER `getVariablesInCollection` (src/code.js:60): resolve each of
the collection's variable ids, keeping those that resolve; empty list
when the collection is absent. -/
def getVariablesInCollection (doc : Doc) (collectionId : String) : List Variable :=
  match doc.getCollectionById collectionId with
  | none => []
  | some collection => collection.variableIds.filterMap doc.getVariableById

/-- HELPER `getVariableNamesInCollection` (src/code.js:84): the name set
of a collection, modelled as the list of names (membership only). -/
def getVariableNamesInCollection (doc : Doc) (collectionId : String) : List String :=
  (getVariablesInCollection doc collectionId).map (fun v => v.name)

/-- Result of `findDuplicateNames`. -/
structure DupResult where
  duplicates : List Variable
  canMove : List Variable
deriving Repr, DecidableEq

/-- HELPER `findDuplicateNames` (src/code.js:100): partition the
candidates by whether their name is already present in the destination
name set, preserving input order in both outputs. -/
def findDuplicateNames (sourceVariables : List Variable) (destinationNames : List String) :
    DupResult :=
  match sourceVariables with
  | [] => ⟨[], []⟩
  | variable0 :: rest =>
    let r := findDuplicateNames rest destinationNames
    if destinationNames.contains variable0.name then
      ⟨variable0 :: r.duplicates, r.canMove⟩
    else
      ⟨r.duplicates, variable0 :: r.canMove⟩

/-- HELPER `getDisplayTypeName` (src/code.js:395): normalize the host's
`FLOAT` type tag to the user-facing `NUMBER` label, all other tags pass
through unchanged. -/
def getDisplayTypeName (figmaType : String) : String :=
  if figmaType == "FLOAT" then "NUMBER" else figmaType

/-- HELPER `createVariableInCollection` (src/code.js:128):
`figma.variables.createVariable(name, destination, resolvedType)`
followed by the metadata copies.  The host assigns the shell a fresh id
(`Oracle.newIdOf`); a thrown creation error is `none`
(`Oracle.createOk` false).  A fresh shell has empty values, and the
conditional copies of description/scopes coincide with their defaults
when the condition fails. -/
def createVariableInCollection (o : Oracle) (originalVariable : Variable)
    (destinationCollection : VariableCollection) : Option Variable :=
  if o.createOk originalVariable.id then
    some
      { id := o.newIdOf originalVariable.id
      , name := originalVariable.name
      , resolvedType := originalVariable.resolvedType
      , description := if originalVariable.description != "" then originalVariable.description else ""
      , hiddenFromPublishing := originalVariable.hiddenFromPublishing
      , scopes := if originalVariable.scopes.length > 0 then originalVariable.scopes else []
      , codeSyntaxEntries := originalVariable.codeSyntaxEntries
      , valuesByMode := [] }
  else none

/-- The loop body of `copyVariableValues` (src/code.js:187-263) as an
effect trace: the ordered list of `setValueForMode(modeId, value)` calls
issued on the new variable.  Iterates the destination modes paired
positionally with `Object.keys(originalValues)`; iterations past the
original's key count (and alias targets that no longer resolve) issue
no call. -/
def copyModesLoop (doc : Doc) (idMapping : List (String × Variable))
    (originalValues : List (String × Value)) :
    List Mode → List String → List (String × Value)
  | [], _ => []
  | _ :: _, [] => []
  | destinationMode :: restModes, originalModeId :: restIds =>
    let rest := copyModesLoop doc idMapping originalValues restModes restIds
    match assocGet originalValues originalModeId with
    | none => rest
    | some originalValue =>
      match originalValue with
      | Value.varAlias referencedVariableId =>
        match assocGet idMapping referencedVariableId with
        | some newReferencedVariable =>
          (destinationMode.modeId, Value.varAlias newReferencedVariable.id) :: rest
        | none =>
          match doc.getVariableById referencedVariableId with
          | some referencedVariable =>
            (destinationMode.modeId, Value.varAlias referencedVariable.id) :: rest
          | none => rest
      | Value.lit payload => (destinationMode.modeId, Value.lit payload) :: rest

/-- HELPER `copyVariableValues` (src/code.js:181): the set-call trace
produced when copying `originalVariable`'s values onto its new shell. -/
def copyVariableValues (doc : Doc) (originalVariable : Variable)
    (destinationCollection : VariableCollection)
    (idMapping : List (String × Variable)) : List (String × Value) :=
  copyModesLoop doc idMapping originalVariable.valuesByMode
    destinationCollection.modes (originalVariable.valuesByMode.map Prod.fst)

/-- The per-value transformation of Phase 2, stated per the spec: an
alias to a moved variable is rewritten to its new shell, an alias to an
unmoved but live variable is kept, an alias to a vanished variable is
dropped, and a literal is copied verbatim. -/
def pairValue (doc : Doc) (idMapping : List (String × Variable)) : Value → Option Value
  | Value.varAlias referencedVariableId =>
    match assocGet idMapping referencedVariableId with
    | some newReferencedVariable => some (Value.varAlias newReferencedVariable.id)
    | none =>
      match doc.getVariableById referencedVariableId with
      | some referencedVariable => some (Value.varAlias referencedVariable.id)
      | none => none
  | Value.lit payload => some (Value.lit payload)

/-- Phase 2 value pairing stated per the spec's words: the i-th
destination mode is paired positionally with the i-th entry of the
original's mode-value mapping, truncating to the shorter side. -/
def copySpec (doc : Doc) (idMapping : List (String × Variable))
    (destModes : List Mode) (originalValues : List (String × Value)) :
    List (String × Value) :=
  (destModes.zip originalValues).filterMap (fun p =>
    (pairValue doc idMapping p.2.2).map (fun w => (p.1.modeId, w)))

/-- One located binding (src/code.js:296,306): the node (by its stable
position in the document's node list, standing in for the object
reference the source stores), the property, the referenced variable id,
and for sequence bindings the index (`null` for scalar bindings). -/
structure BindingRec where
  nodeIdx : Nat
  property : String
  variableId : String
  bindingIndex : Option Nat
  isArrayBinding : Bool
deriving Repr, DecidableEq

/-- The inner loops of `findAllVariableBindings` for one node
(src/code.js:282-315): inspect every bound property; sequence bindings
yield one record per matching indexed entry, scalar bindings one record
when matching. -/
def bindingsOfNode (targetVariableIds : List String) (nodeIdx : Nat) (node : Node) :
    List BindingRec :=
  node.boundVariables.flatMap (fun pb =>
    match pb.2 with
    | PropBinding.many items =>
      (List.range items.length).filterMap (fun index =>
        match items[index]? with
        | some itemId =>
          if targetVariableIds.contains itemId then
            some ⟨nodeIdx, pb.1, itemId, some index, true⟩
          else none
        | none => none)
    | PropBinding.single bid =>
      if targetVariableIds.contains bid then [⟨nodeIdx, pb.1, bid, none, false⟩] else [])

/-- HELPER `findAllVariableBindings` (src/code.js:271): every binding in
the document whose referenced identity is among `variableIds`. -/
def findAllVariableBindings (doc : Doc) (variableIds : List String) : List BindingRec :=
  (List.range doc.nodes.length).flatMap (fun i =>
    match doc.nodes[i]? with
    | some node => bindingsOfNode variableIds i node
    | none => [])

/-- Host call `figma.variables.setBoundVariableForPaint(paint, 'color', v)`:
returns a copy of the paint re-bound to `v`. -/
def setBoundVariableForPaint (entry : BoundEntry) (_field : String) (v : Variable) :
    BoundEntry :=
  { entry with boundColorId := some v.id }

/-- Host call `figma.variables.setBoundVariableForEffect(effect, 'color', v)`. -/
def setBoundVariableForEffect (entry : BoundEntry) (_field : String) (v : Variable) :
    BoundEntry :=
  { entry with boundColorId := some v.id }

/-- Host call `node.setBoundVariable(property, v)`: repoint the scalar binding. -/
def Node.setBoundVariable (node : Node) (property : String) (v : Variable) : Node :=
  { node with boundVariables := assocSet node.boundVariables property (PropBinding.single v.id) }

/-- The `try` body of `rebindVariable` (src/code.js:328-382).  `hostOk`
is the oracle for the host mutation call reached on the path (an
unexpected host failure throws, modelled as `Except.error`).  A `none`
sequence property covers both `'fills' in node` being false and the
value not being an array — both fall through to `return false`. -/
def rebindTry (hostOk : Bool) (node : Node) (property : String) (newVariable : Variable)
    (bindingIndex : Nat) (isArrayBinding : Bool) : Except String (Bool × Node) :=
  if !isArrayBinding then
    if node.hasSetBoundVariable then
      if hostOk then Except.ok (true, node.setBoundVariable property newVariable)
      else Except.error "setBoundVariable failed"
    else Except.ok (false, node)
  else if property == "fills" then
    match node.fills with
    | some currentFills =>
      if h : bindingIndex < currentFills.length then
        if hostOk then
          Except.ok (true, { node with fills := some (currentFills.set bindingIndex
            (setBoundVariableForPaint currentFills[bindingIndex] "color" newVariable)) })
        else Except.error "setBoundVariableForPaint failed"
      else Except.ok (false, node)
    | none => Except.ok (false, node)
  else if property == "strokes" then
    match node.strokes with
    | some currentStrokes =>
      if h : bindingIndex < currentStrokes.length then
        if hostOk then
          Except.ok (true, { node with strokes := some (currentStrokes.set bindingIndex
            (setBoundVariableForPaint currentStrokes[bindingIndex] "color" newVariable)) })
        else Except.error "setBoundVariableForPaint failed"
      else Except.ok (false, node)
    | none => Except.ok (false, node)
  else if property == "effects" then
    match node.effects with
    | some currentEffects =>
      if h : bindingIndex < currentEffects.length then
        if hostOk then
          Except.ok (true, { node with effects := some (currentEffects.set bindingIndex
            (setBoundVariableForEffect currentEffects[bindingIndex] "color" newVariable)) })
        else Except.error "setBoundVariableForEffect failed"
      else Except.ok (false, node)
    | none => Except.ok (false, node)
  else Except.ok (false, node)

/-- HELPER `rebindVariable` (src/code.js:326): the `try` body with its
`catch`, which converts any thrown error into a `false` result (and a
logged diagnostic), leaving the node untouched. -/
def rebindVariable (hostOk : Bool) (node : Node) (property : String) (newVariable : Variable)
    (bindingIndex : Nat) (isArrayBinding : Bool) : Bool × Node :=
  match rebindTry hostOk node property newVariable bindingIndex isArrayBinding with
  | Except.ok r => r
  | Except.error _ => (false, node)

/-- Host effect of `figma.variables.createVariable`: the fresh variable
joins the document and its id joins the destination collection. -/
def Doc.addVariable (doc : Doc) (v : Variable) (collectionId : String) : Doc :=
  { doc with
    allVariables := doc.allVariables ++ [v]
  , collections := doc.collections.map (fun c =>
      if c.id == collectionId then { c with variableIds := c.variableIds ++ [v.id] } else c) }

/-- Host effect of `newVariable.setValueForMode(modeId, v)`: update the
`valuesByMode` object of the variable with that id. -/
def Doc.setVariableValue (doc : Doc) (variableId modeId : String) (v : Value) : Doc :=
  { doc with allVariables := doc.allVariables.map (fun w =>
      if w.id == variableId then { w with valuesByMode := assocSet w.valuesByMode modeId v }
      else w) }

/-- Host effect of writing back a mutated node. -/
def Doc.setNode (doc : Doc) (i : Nat) (node : Node) : Doc :=
  { doc with nodes := doc.nodes.set i node }

/-- Host effect of `oldVariable.remove()`: the variable object found by
id leaves the document and its id leaves its collection. -/
def Doc.removeVariable (doc : Doc) (variableId : String) : Doc :=
  { doc with
    allVariables := doc.allVariables.eraseP (fun v => v.id == variableId)
  , collections := doc.collections.map (fun c =>
      { c with variableIds := c.variableIds.erase variableId }) }

/-- Replay a `setValueForMode` call trace onto the variable with the
given id. -/
def applySetCalls (doc : Doc) (variableId : String) : List (String × Value) → Doc
  | [] => doc
  | c :: rest => applySetCalls (doc.setVariableValue variableId c.1 c.2) variableId rest

/-- Result of Phase 1 (src/code.js:600-626): document after the shell
creations, the `idMapping` in insertion order, and the counters. -/
structure Phase1Result where
  doc : Doc
  idMapping : List (String × Variable)
  successCount : Nat
  errorCount : Nat

/-- PHASE 1 (src/code.js:609-624): create a shell for every movable
variable; a creation failure is counted and the variable is left out of
`idMapping`. -/
def phase1 (o : Oracle) (destinationCollection : VariableCollection) (doc : Doc) :
    List Variable → Phase1Result
  | [] => ⟨doc, [], 0, 0⟩
  | originalVariable :: rest =>
    match createVariableInCollection o originalVariable destinationCollection with
    | some newVariable =>
      let r := phase1 o destinationCollection
        (doc.addVariable newVariable destinationCollection.id) rest
      ⟨r.doc, (originalVariable.id, newVariable) :: r.idMapping, r.successCount + 1, r.errorCount⟩
    | none =>
      let r := phase1 o destinationCollection doc rest
      ⟨r.doc, r.idMapping, r.successCount, r.errorCount + 1⟩

/-- Result of Phase 2 (src/code.js:640-664). -/
structure Phase2Result where
  doc : Doc
  successCount : Nat
  errorCount : Nat

/-- PHASE 2 (src/code.js:643-662): for each movable variable, look up
its shell (missing shell counts as an error) and replay the value-copy
trace onto it; a thrown copy (`Oracle.copyOk` false) is counted and
skipped. -/
def phase2 (o : Oracle) (destinationCollection : VariableCollection)
    (idMapping : List (String × Variable)) (doc : Doc) :
    List Variable → Phase2Result
  | [] => ⟨doc, 0, 0⟩
  | originalVariable :: rest =>
    match assocGet idMapping originalVariable.id with
    | none =>
      let r := phase2 o destinationCollection idMapping doc rest
      ⟨r.doc, r.successCount, r.errorCount + 1⟩
    | some newVariable =>
      if o.copyOk originalVariable.id then
        let calls := copyVariableValues doc originalVariable destinationCollection idMapping
        let r := phase2 o destinationCollection idMapping
          (applySetCalls doc newVariable.id calls) rest
        ⟨r.doc, r.successCount + 1, r.errorCount⟩
      else
        let r := phase2 o destinationCollection idMapping doc rest
        ⟨r.doc, r.successCount, r.errorCount + 1⟩

/-- Result of Phase 3 (src/code.js:676-703); `rebinds` records each
successful rebind as (old variable id, new variable id), mirroring the
per-success log line. -/
structure Phase3Result where
  doc : Doc
  successCount : Nat
  errorCount : Nat
  rebinds : List (String × String)

/-- PHASE 3 (src/code.js:679-701): for each located binding, look up the
replacement shell (missing shell counts as a rebind error) and call
`rebindVariable`, writing the possibly-updated node back. -/
def phase3 (o : Oracle) (idMapping : List (String × Variable)) (doc : Doc) :
    List BindingRec → Phase3Result
  | [] => ⟨doc, 0, 0, []⟩
  | binding :: rest =>
    match assocGet idMapping binding.variableId with
    | none =>
      let r := phase3 o idMapping doc rest
      ⟨r.doc, r.successCount, r.errorCount + 1, r.rebinds⟩
    | some newVariable =>
      match doc.nodes[binding.nodeIdx]? with
      | none =>
        let r := phase3 o idMapping doc rest
        ⟨r.doc, r.successCount, r.errorCount + 1, r.rebinds⟩
      | some node =>
        let result := rebindVariable (o.rebindOk binding.nodeIdx binding.property) node
          binding.property newVariable (binding.bindingIndex.getD 0) binding.isArrayBinding
        let doc' := doc.setNode binding.nodeIdx result.2
        if result.1 then
          let r := phase3 o idMapping doc' rest
          ⟨r.doc, r.successCount + 1, r.errorCount,
            (binding.variableId, newVariable.id) :: r.rebinds⟩
        else
          let r := phase3 o idMapping doc' rest
          ⟨r.doc, r.successCount, r.errorCount + 1, r.rebinds⟩

/-- Result of Phase 4 (src/code.js:710-724); `deletedIds` records the
originals actually removed, in order. -/
structure Phase4Result where
  doc : Doc
  deleteCount : Nat
  deletedIds : List String

/-- PHASE 4 (src/code.js:712-722): for each `idMapping` key, re-resolve
the original by id and remove it when it still exists. -/
def phase4 (doc : Doc) : List String → Phase4Result
  | [] => ⟨doc, 0, []⟩
  | oldVariableId :: rest =>
    match doc.getVariableById oldVariableId with
    | some _ =>
      let r := phase4 (doc.removeVariable oldVariableId) rest
      ⟨r.doc, r.deleteCount + 1, oldVariableId :: r.deletedIds⟩
    | none => phase4 doc rest

/-- A message posted back to the UI (`figma.ui.postMessage`): either a
`move-error` or the `move-complete` record (src/code.js:739-748). -/
inductive UIMessage where
  | moveError (message : String)
  | moveComplete (successCount errorCount skippedCount rebindSuccessCount
      rebindErrorCount deletedCount : Nat) (destinationName : String)
deriving Repr, DecidableEq

/-- Observable outcome of one `move-variables` request: the final
document, the posted UI messages, the transient notifications, and as
ghost trace data the `idMapping` built in Phase 1, the successful
rebinds of Phase 3, and the ids deleted in Phase 4. -/
structure RunResult where
  doc : Doc
  messages : List UIMessage
  notifications : List String
  idMapping : List (String × Variable)
  rebinds : List (String × String)
  deletedIds : List String

/-- An early validation return: one notification, one error message,
document untouched. -/
def errorResult (doc : Doc) (notification message : String) : RunResult :=
  ⟨doc, [UIMessage.moveError message], [notification], [], [], []⟩

/-- The summary notification string (src/code.js:729-735). -/
def summaryMessage (createSuccessCount : Nat) (destinationName : String)
    (skipped : Nat) : String :=
  let base := "Moved " ++ toString createSuccessCount ++ " variable" ++
    (if createSuccessCount != 1 then "s" else "") ++ " to \"" ++ destinationName ++ "\""
  if skipped > 0 then base ++ " (" ++ toString skipped ++ " skipped)" else base

/-- The post-validation body of the `move-variables` handler
(src/code.js:585-748): the four phases in sequence, the two
notifications, and the single `move-complete` message. -/
def executeMove (o : Oracle) (doc : Doc) (destinationCollection : VariableCollection)
    (duplicates safeToMove : List Variable) : RunResult :=
  let p1 := phase1 o destinationCollection doc safeToMove
  let p2 := phase2 o destinationCollection p1.idMapping p1.doc safeToMove
  let oldVariableIds := p1.idMapping.map Prod.fst
  let allBindings := findAllVariableBindings p2.doc oldVariableIds
  let p3 := phase3 o p1.idMapping p2.doc allBindings
  let p4 := phase4 p3.doc oldVariableIds
  { doc := p4.doc
  , messages := [UIMessage.moveComplete p1.successCount p1.errorCount duplicates.length
      p3.successCount p3.errorCount p4.deleteCount destinationCollection.name]
  , notifications := ["Moving " ++ toString safeToMove.length ++ " variable(s)...",
      summaryMessage p1.successCount destinationCollection.name duplicates.length]
  , idMapping := p1.idMapping
  , rebinds := p3.rebinds
  , deletedIds := p4.deletedIds }

/-- A `move-variables` request.  The collection ids are strings with
`""` standing for an absent/falsy field; `selectedVariableIds` is
`none` when the field is absent from the message. -/
structure MoveMsg where
  sourceCollectionId : String
  destinationCollectionId : String
  selectedVariableIds : Option (List String)

/-- The `move-variables` message handler (src/code.js:507-749): the
validation checks in source order, then the four-phase migration. -/
def onMoveVariables (o : Oracle) (doc : Doc) (msg : MoveMsg) : RunResult :=
  let sourceCollectionId := msg.sourceCollectionId
  let destinationCollectionId := msg.destinationCollectionId
  let selectedVariableIds := msg.selectedVariableIds.getD []
  if sourceCollectionId == "" || destinationCollectionId == "" then
    errorResult doc "Please select both source and destination collections!"
      "Please select both collections before moving."
  else if sourceCollectionId == destinationCollectionId then
    errorResult doc "Source and destination cannot be the same!"
      "You cannot move variables to the same collection."
  else if selectedVariableIds.length == 0 then
    errorResult doc "No variables selected!"
      "Please select at least one variable to move."
  else
    match doc.getCollectionById sourceCollectionId,
        doc.getCollectionById destinationCollectionId with
    | some _sourceCollection, some destinationCollection =>
      let allSourceVariables := getVariablesInCollection doc sourceCollectionId
      let variablesToMove := allSourceVariables.filter
        (fun v => selectedVariableIds.contains v.id)
      if variablesToMove.length == 0 then
        errorResult doc "No valid variables to move!"
          "The selected variables could not be found."
      else
        let destinationNames := getVariableNamesInCollection doc destinationCollectionId
        let part := findDuplicateNames variablesToMove destinationNames
        if part.canMove.length == 0 then
          errorResult doc "All selected variables have duplicate names!"
            "All selected variables already exist in the destination."
        else
          executeMove o doc destinationCollection part.duplicates part.canMove
    | _, _ =>
      errorResult doc "One of the collections no longer exists!"
        "Collection not found. It may have been deleted."

/-- Read a variable's `valuesByMode` out of the document, by id. -/
def Doc.valsOf (doc : Doc) (variableId : String) : Option (List (String × Value)) :=
  (doc.getVariableById variableId).map (fun v => v.valuesByMode)

/-- The ids of the document's variables, in order. -/
def Doc.varIds (doc : Doc) : List String :=
  doc.allVariables.map (fun v => v.id)

/-- Replay a `setValueForMode` trace on a bare `valuesByMode` object. -/
def applyValueCalls (vals : List (String × Value)) : List (String × Value) → List (String × Value)
  | [] => vals
  | c :: rest => applyValueCalls (assocSet vals c.1 c.2) rest

/-- Fixture: a literal-valued color variable. -/
def sampleA : Variable :=
  ⟨"A", "color-base", "COLOR", "", false, [], [], [("m1", Value.lit "red"), ("m2", Value.lit "blue")]⟩

/-- Fixture: a variable aliasing `sampleA` at its first mode. -/
def sampleB : Variable :=
  ⟨"B", "color-alias", "COLOR", "", false, [], [],
    [("m1", Value.varAlias "A"), ("m2", Value.lit "x")]⟩

/-- Fixture: the source collection holding `sampleA` and `sampleB`. -/
def sampleBrand : VariableCollection :=
  ⟨"brand", "Brand", [⟨"m1", "Light"⟩, ⟨"m2", "Dark"⟩], ["A", "B"]⟩

/-- Fixture: the destination collection. -/
def sampleTokens : VariableCollection :=
  ⟨"tokens", "Tokens", [⟨"t1", "Light"⟩, ⟨"t2", "Dark"⟩], []⟩

/-- Fixture: a two-collection document with no nodes. -/
def sampleDoc : Doc := ⟨[sampleBrand, sampleTokens], [sampleA, sampleB], []⟩

/-- Fixture: an oracle on which every host call succeeds. -/
def sampleOracle : Oracle :=
  ⟨fun _ => true, fun s => "new:" ++ s, fun _ => true, fun _ _ => true⟩

/-- Fixture: like `sampleOracle` but Phase 1 creation fails for id `A`. -/
def sampleOracleFailA : Oracle :=
  ⟨fun s => s != "A", fun s => "new:" ++ s, fun _ => true, fun _ _ => true⟩

/-- Fixture: like `sampleOracle` but every Phase 2 copy call throws. -/
def sampleOracleFailCopy : Oracle :=
  ⟨fun _ => true, fun s => "new:" ++ s, fun _ => false, fun _ _ => true⟩

/-- Fixture: a node with one scalar binding but no rebind capability. -/
def sampleNodePlain : Node :=
  ⟨"n1", "Rect", false, [("opacity", PropBinding.single "A")], none, none, none⟩

/-- Fixture: a node with a two-entry fills list bound to `A` at index 1. -/
def sampleNodeFills : Node :=
  ⟨"n2", "Frame", true, [("fills", PropBinding.many ["Z", "A"])],
    some [⟨some "Z", "p0"⟩, ⟨some "A", "p1"⟩], none, none⟩

/- ============================================================
   Theorems
   ============================================================ -/

theorem contains_mem (ns : List String) (s : String) : ns.contains s = true ↔ s ∈ ns :=
  List.elem_iff

theorem findDuplicateNames_duplicates_eq (vs : List Variable) (ns : List String) :
    (findDuplicateNames vs ns).duplicates = vs.filter (fun v => ns.contains v.name) := by
  induction vs with
  | nil => rfl
  | cons v rest ih =>
    cases h : ns.contains v.name
    · simp only [findDuplicateNames, List.filter_cons, h]
      simpa using ih
    · simp only [findDuplicateNames, List.filter_cons, h]
      simpa using ih

theorem findDuplicateNames_canMove_eq (vs : List Variable) (ns : List String) :
    (findDuplicateNames vs ns).canMove = vs.filter (fun v => !ns.contains v.name) := by
  induction vs with
  | nil => rfl
  | cons v rest ih =>
    cases h : ns.contains v.name
    · simp only [findDuplicateNames, List.filter_cons, h]
      simpa using ih
    · simp only [findDuplicateNames, List.filter_cons, h]
      simpa using ih

/-- C4: `findDuplicateNames` blocks a candidate iff its name is exactly
present in the destination name set (no case-folding), both outputs
preserve input order (they are the order-preserving filters of the
input), with no collisions everything is movable, and with total
collision everything is blocked. -/
theorem C4_partition (vs : List Variable) (ns : List String) :
    (findDuplicateNames vs ns).duplicates = vs.filter (fun v => ns.contains v.name)
    ∧ (findDuplicateNames vs ns).canMove = vs.filter (fun v => !ns.contains v.name)
    ∧ (∀ v ∈ vs, (v ∈ (findDuplicateNames vs ns).duplicates ↔ v.name ∈ ns))
    ∧ ((∀ v ∈ vs, v.name ∉ ns) → findDuplicateNames vs ns = ⟨[], vs⟩)
    ∧ ((∀ v ∈ vs, v.name ∈ ns) → findDuplicateNames vs ns = ⟨vs, []⟩) := by
  refine ⟨findDuplicateNames_duplicates_eq vs ns, findDuplicateNames_canMove_eq vs ns, ?_, ?_, ?_⟩
  · intro v hv
    rw [findDuplicateNames_duplicates_eq]
    rw [List.mem_filter]
    constructor
    · intro hm
      exact (contains_mem ns v.name).mp hm.2
    · intro hm
      exact ⟨hv, (contains_mem ns v.name).mpr hm⟩
  · intro h
    have h1 := findDuplicateNames_duplicates_eq vs ns
    have h2 := findDuplicateNames_canMove_eq vs ns
    have hd : vs.filter (fun v => ns.contains v.name) = [] := by
      rw [List.filter_eq_nil_iff]
      intro v hv hcontra
      exact h v hv ((contains_mem ns v.name).mp hcontra)
    have hc : vs.filter (fun v => !ns.contains v.name) = vs := by
      rw [List.filter_eq_self]
      intro v hv
      rw [Bool.not_eq_true']
      rw [← Bool.not_eq_true]
      intro hcontra
      exact h v hv ((contains_mem ns v.name).mp hcontra)
    cases hfd : findDuplicateNames vs ns with
    | mk d c =>
      rw [hfd] at h1 h2
      simp only at h1 h2
      rw [h1, h2, hd, hc]
  · intro h
    have h1 := findDuplicateNames_duplicates_eq vs ns
    have h2 := findDuplicateNames_canMove_eq vs ns
    have hd : vs.filter (fun v => ns.contains v.name) = vs := by
      rw [List.filter_eq_self]
      intro v hv
      exact (contains_mem ns v.name).mpr (h v hv)
    have hc : vs.filter (fun v => !ns.contains v.name) = [] := by
      rw [List.filter_eq_nil_iff]
      intro v hv hcontra
      rw [Bool.not_eq_true'] at hcontra
      rw [← Bool.not_eq_true] at hcontra
      exact hcontra ((contains_mem ns v.name).mpr (h v hv))
    cases hfd : findDuplicateNames vs ns with
    | mk d c =>
      rw [hfd] at h1 h2
      simp only at h1 h2
      rw [h1, h2, hd, hc]

/-- Witness for C4 at a concrete partition: `sampleB`'s name collides,
`sampleA`'s does not. -/
theorem C4_partition_witness :
    (findDuplicateNames [sampleA, sampleB] ["color-alias"]).duplicates = [sampleB]
    ∧ (findDuplicateNames [sampleA, sampleB] ["color-alias"]).canMove = [sampleA] := by
  have h := C4_partition [sampleA, sampleB] ["color-alias"]
  exact ⟨by rw [h.1]; decide, by rw [h.2.1]; decide⟩

/-- C8: the display-type conversion maps `FLOAT` to `NUMBER`, leaves
every other tag unchanged, and is idempotent. -/
theorem C8_displayType :
    getDisplayTypeName "FLOAT" = "NUMBER"
    ∧ (∀ t, t ≠ "FLOAT" → getDisplayTypeName t = t)
    ∧ (∀ t, getDisplayTypeName (getDisplayTypeName t) = getDisplayTypeName t) := by
  refine ⟨rfl, ?_, ?_⟩
  · intro t ht
    simp [getDisplayTypeName, ht]
  · intro t
    by_cases ht : t = "FLOAT"
    · subst ht; rfl
    · simp [getDisplayTypeName, ht]

/-- Witness for C8 at a concrete non-`FLOAT` tag. -/
theorem C8_displayType_witness : getDisplayTypeName "COLOR" = "COLOR" :=
  C8_displayType.2.1 "COLOR" (by decide)

theorem assocGet_of_nodup {α : Type} {m : List (String × α)}
    (hnd : (m.map Prod.fst).Nodup) {k : String} {v : α} (hm : (k, v) ∈ m) :
    assocGet m k = some v := by
  induction m with
  | nil => cases hm
  | cons p rest ih =>
    rcases List.mem_cons.mp hm with h | h
    · rw [← h]
      simp [assocGet, List.find?_cons]
    · have hk : ¬p.1 = k := by
        intro he
        have hmem : k ∈ rest.map Prod.fst := List.mem_map.mpr ⟨(k, v), h, rfl⟩
        rw [List.map_cons] at hnd
        exact (List.nodup_cons.mp hnd).1 (he ▸ hmem)
      have htl : (rest.map Prod.fst).Nodup := by
        rw [List.map_cons] at hnd
        exact (List.nodup_cons.mp hnd).2
      simpa [assocGet, List.find?_cons, beq_eq_false_iff_ne.mpr hk] using ih htl h

theorem assocGet_eq_none {α : Type} {m : List (String × α)} {k : String}
    (h : k ∉ m.map Prod.fst) : assocGet m k = none := by
  have hf : m.find? (fun p => p.1 == k) = none := by
    rw [List.find?_eq_none]
    intro p hp
    simp only [beq_iff_eq]
    intro he
    exact h (List.mem_map.mpr ⟨p, hp, he⟩)
  simp [assocGet, hf]

theorem assocGet_mem {α : Type} {m : List (String × α)} {k : String} {v : α}
    (h : assocGet m k = some v) : (k, v) ∈ m := by
  unfold assocGet at h
  cases hf : m.find? (fun p => p.1 == k) with
  | none => rw [hf] at h; cases h
  | some p =>
    rw [hf] at h
    have hp := List.find?_some hf
    have hm := List.mem_of_find?_eq_some hf
    obtain ⟨p1, p2⟩ := p
    simp only [Option.map_some', Option.some.injEq] at h
    simp only [beq_iff_eq] at hp
    rw [hp, h] at hm
    exact hm

theorem assocSet_of_not_mem {α : Type} {m : List (String × α)} {k : String}
    (h : k ∉ m.map Prod.fst) (v : α) : assocSet m k v = m ++ [(k, v)] := by
  unfold assocSet
  rw [if_neg]
  intro hc
  exact h ((contains_mem (m.map Prod.fst) k).mp hc)

theorem applyValueCalls_disjoint (calls : List (String × Value)) :
    ∀ acc : List (String × Value),
    (∀ k ∈ calls.map Prod.fst, k ∉ acc.map Prod.fst) →
    (calls.map Prod.fst).Nodup →
    applyValueCalls acc calls = acc ++ calls := by
  induction calls with
  | nil =>
    intro acc _ _
    show acc = acc ++ []
    rw [List.append_nil]
  | cons c rest ih =>
    intro acc hdis hnd
    rw [List.map_cons] at hnd
    have hc1 : c.1 ∉ acc.map Prod.fst := hdis c.1 (by simp)
    show applyValueCalls (assocSet acc c.1 c.2) rest = acc ++ c :: rest
    rw [assocSet_of_not_mem hc1]
    rw [ih (acc ++ [(c.1, c.2)]) ?hdis (List.nodup_cons.mp hnd).2]
    · simp
    case hdis =>
      intro k hk
      simp only [List.map_append, List.mem_append]
      rintro (hka | hka)
      · exact hdis k (by simp [hk]) hka
      · simp only [List.map_cons, List.map_nil, List.mem_cons] at hka
        rcases hka with hka | hka
        · rw [hka] at hk
          exact (List.nodup_cons.mp hnd).1 hk
        · cases hka

theorem applyValueCalls_nil_acc {calls : List (String × Value)}
    (hnd : (calls.map Prod.fst).Nodup) : applyValueCalls [] calls = calls := by
  simpa using applyValueCalls_disjoint calls [] (by simp) hnd

theorem copyModesLoop_eq_copySpec (doc : Doc) (im : List (String × Variable))
    (full : List (String × Value)) (hnd : (full.map Prod.fst).Nodup) :
    ∀ (dms : List Mode) (sub : List (String × Value)), (∀ p ∈ sub, p ∈ full) →
    copyModesLoop doc im full dms (sub.map Prod.fst) = copySpec doc im dms sub := by
  intro dms
  induction dms with
  | nil =>
    intro sub _
    cases sub <;> simp [copyModesLoop, copySpec]
  | cons d ds ih =>
    intro sub hsub
    cases sub with
    | nil => simp [copyModesLoop, copySpec]
    | cons p ps =>
      obtain ⟨k, v⟩ := p
      have hget : assocGet full k = some v :=
        assocGet_of_nodup hnd (hsub (k, v) (List.mem_cons_self _ _))
      have hrec := ih ps (fun q hq => hsub q (List.mem_cons_of_mem _ hq))
      simp only [List.map_cons]
      cases v with
      | lit s =>
        simp [copyModesLoop, hget, copySpec, List.zip_cons_cons, List.filterMap_cons,
          pairValue, hrec]
      | varAlias r =>
        cases him : assocGet im r with
        | some nv =>
          simp [copyModesLoop, hget, him, copySpec, List.zip_cons_cons,
            List.filterMap_cons, pairValue, hrec]
        | none =>
          cases hres : doc.getVariableById r with
          | some rv =>
            simp [copyModesLoop, hget, him, hres, copySpec, List.zip_cons_cons,
              List.filterMap_cons, pairValue, hrec]
          | none =>
            simp [copyModesLoop, hget, him, hres, copySpec, List.zip_cons_cons,
              List.filterMap_cons, pairValue, hrec]

theorem copyVariableValues_eq_copySpec (doc : Doc) (im : List (String × Variable))
    (v : Variable) (dc : VariableCollection)
    (hnd : (v.valuesByMode.map Prod.fst).Nodup) :
    copyVariableValues doc v dc im = copySpec doc im dc.modes v.valuesByMode :=
  copyModesLoop_eq_copySpec doc im v.valuesByMode hnd dc.modes v.valuesByMode (fun _ h => h)

theorem copySpec_keys_sublist (doc : Doc) (im : List (String × Variable)) :
    ∀ (dms : List Mode) (vals : List (String × Value)),
    ((copySpec doc im dms vals).map Prod.fst).Sublist
      ((dms.take vals.length).map Mode.modeId) := by
  intro dms
  induction dms with
  | nil => intro vals; simp [copySpec]
  | cons d ds ih =>
    intro vals
    cases vals with
    | nil => simp [copySpec]
    | cons p ps =>
      simp only [copySpec, List.zip_cons_cons, List.filterMap_cons, List.length_cons,
        List.take_succ_cons, List.map_cons]
      cases hp : pairValue doc im p.2 with
      | none =>
        have h := (ih ps).cons (d.modeId)
        simpa [copySpec, hp] using h
      | some w =>
        have h := (ih ps).cons₂ (d.modeId)
        simpa [copySpec, hp] using h

theorem copySpec_keys_sublist_modes (doc : Doc) (im : List (String × Variable))
    (dms : List Mode) (vals : List (String × Value)) :
    ((copySpec doc im dms vals).map Prod.fst).Sublist (dms.map Mode.modeId) :=
  (copySpec_keys_sublist doc im dms vals).trans
    ((List.take_sublist _ _).map Mode.modeId)

theorem copySpec_keys_nodup (doc : Doc) (im : List (String × Variable))
    {dms : List Mode} (vals : List (String × Value))
    (hmodes : (dms.map Mode.modeId).Nodup) :
    ((copySpec doc im dms vals).map Prod.fst).Nodup :=
  (copySpec_keys_sublist_modes doc im dms vals).nodup hmodes

theorem copySpec_assocGet (doc : Doc) (im : List (String × Variable))
    {dms : List Mode} {vals : List (String × Value)}
    (hmodes : (dms.map Mode.modeId).Nodup) {j : Nat} {dm : Mode}
    {kj : String} {vj : Value}
    (hdm : dms[j]? = some dm) (hval : vals[j]? = some (kj, vj)) :
    assocGet (copySpec doc im dms vals) dm.modeId = pairValue doc im vj := by
  have hjlen : j < dms.length := by
    rcases List.getElem?_eq_some.mp hdm with ⟨h, _⟩
    exact h
  cases hp : pairValue doc im vj with
  | some w =>
    have hzip : (dms.zip vals)[j]? = some (dm, (kj, vj)) :=
      List.getElem?_zip_eq_some.mpr ⟨hdm, hval⟩
    have hzmem : (dm, (kj, vj)) ∈ dms.zip vals := by
      rw [List.mem_iff_getElem?]
      exact ⟨j, hzip⟩
    have hmem : (dm.modeId, w) ∈ copySpec doc im dms vals := by
      rw [copySpec, List.mem_filterMap]
      exact ⟨(dm, (kj, vj)), hzmem, by simp [hp]⟩
    exact assocGet_of_nodup (copySpec_keys_nodup doc im vals hmodes) hmem
  | none =>
    apply assocGet_eq_none
    intro hcon
    rcases List.mem_map.mp hcon with ⟨call, hcall, hfst⟩
    rw [copySpec, List.mem_filterMap] at hcall
    rcases hcall with ⟨q, hqmem, hqeq⟩
    cases hw : pairValue doc im q.2.2 with
    | none => rw [hw] at hqeq; cases hqeq
    | some w =>
      rw [hw] at hqeq
      simp only [Option.map_some', Option.some.injEq] at hqeq
      rcases List.mem_iff_getElem?.mp hqmem with ⟨i, hzi⟩
      have hzi' := List.getElem?_zip_eq_some.mp hzi
      have hfst' : q.1.modeId = dm.modeId := by
        rw [← hqeq] at hfst
        simpa using hfst
      have hmapi : (dms.map Mode.modeId)[i]? = some dm.modeId := by
        rw [List.getElem?_map, hzi'.1]
        simp [hfst']
      have hmapj : (dms.map Mode.modeId)[j]? = some dm.modeId := by
        rw [List.getElem?_map, hdm]
        simp
      have hij : i = j := by
        apply List.getElem?_inj ?_ hmodes (hmapi.trans hmapj.symm)
        rcases List.getElem?_eq_some.mp hmapi with ⟨h, _⟩
        exact h
      rw [hij, hval] at hzi'
      have hq2 : q.2 = (kj, vj) := (Option.some.inj hzi'.2).symm
      rw [hq2] at hw
      rw [hw] at hp
      cases hp

theorem getVariableById_id {doc : Doc} {r : String} {rv : Variable}
    (h : doc.getVariableById r = some rv) : rv.id = r := by
  unfold Doc.getVariableById at h
  have hp := List.find?_some h
  simp only [beq_iff_eq] at hp
  exact hp

theorem phase2_successCount_eq (o : Oracle) (dc : VariableCollection)
    (m : List (String × Variable)) :
    ∀ (l : List Variable) (doc : Doc),
    (phase2 o dc m doc l).successCount
      = l.countP (fun v => (assocGet m v.id).isSome && o.copyOk v.id) := by
  intro l
  induction l with
  | nil => intro doc; rfl
  | cons v rest ih =>
    intro doc
    cases hm : assocGet m v.id with
    | none => simp [phase2, List.countP_cons, hm, ih]
    | some nv =>
      cases hc : o.copyOk v.id
      · simp [phase2, List.countP_cons, hm, hc, ih]
      · simp [phase2, List.countP_cons, hm, hc, ih]

theorem phase2_count_sum (o : Oracle) (dc : VariableCollection)
    (m : List (String × Variable)) :
    ∀ (l : List Variable) (doc : Doc),
    (phase2 o dc m doc l).successCount + (phase2 o dc m doc l).errorCount = l.length := by
  intro l
  induction l with
  | nil => intro doc; rfl
  | cons v rest ih =>
    intro doc
    cases hm : assocGet m v.id with
    | none =>
      have h := ih doc
      simp only [phase2, hm, List.length_cons]
      omega
    | some nv =>
      cases hc : o.copyOk v.id
      · have h := ih doc
        simp only [phase2, hm, hc, Bool.false_eq_true, if_false, List.length_cons]
        omega
      · have h := ih (applySetCalls doc nv.id (copyVariableValues doc v dc m))
        simp only [phase2, hm, hc, if_true, List.length_cons]
        omega

/-- C2: Phase 2 value copying is positional — it equals the pairing of
the i-th destination mode with the i-th entry of the original's
mode-value mapping, truncated to the shorter side (`copySpec`); at most
`min` as many values are set as either side has modes; and any
destination mode at a position past the original's mode count ends up
unset on the shell. -/
theorem C2_positional_modes (doc : Doc) (im : List (String × Variable))
    (v : Variable) (dc : VariableCollection)
    (hnd : (v.valuesByMode.map Prod.fst).Nodup) :
    copyVariableValues doc v dc im = copySpec doc im dc.modes v.valuesByMode
    ∧ (copyVariableValues doc v dc im).length ≤
        min dc.modes.length v.valuesByMode.length
    ∧ ((dc.modes.map Mode.modeId).Nodup →
        ∀ (j : Nat) (dm : Mode), dc.modes[j]? = some dm →
          v.valuesByMode.length ≤ j →
          assocGet (applyValueCalls [] (copyVariableValues doc v dc im)) dm.modeId
            = none) := by
  have hspec := copyVariableValues_eq_copySpec doc im v dc hnd
  refine ⟨hspec, ?_, ?_⟩
  · rw [hspec]
    calc (copySpec doc im dc.modes v.valuesByMode).length
        ≤ (dc.modes.zip v.valuesByMode).length := List.length_filterMap_le _ _
      _ = min dc.modes.length v.valuesByMode.length := List.length_zip _ _
  · intro hmodes j dm hdm hlen
    have hknd := copySpec_keys_nodup doc im v.valuesByMode hmodes
    rw [hspec, applyValueCalls_nil_acc hknd]
    apply assocGet_eq_none
    intro hmem
    have hsub := copySpec_keys_sublist doc im dc.modes v.valuesByMode
    have hmem' : dm.modeId ∈ (dc.modes.take v.valuesByMode.length).map Mode.modeId :=
      hsub.subset hmem
    rcases List.mem_iff_getElem?.mp hmem' with ⟨i, hi⟩
    rw [List.getElem?_map] at hi
    cases ht : (dc.modes.take v.valuesByMode.length)[i]? with
    | none => rw [ht] at hi; cases hi
    | some mi =>
      rw [ht] at hi
      simp only [Option.map_some', Option.some.injEq] at hi
      rw [List.getElem?_take] at ht
      by_cases hin : i < v.valuesByMode.length
      · rw [if_pos hin] at ht
        have hmapi : (dc.modes.map Mode.modeId)[i]? = some dm.modeId := by
          rw [List.getElem?_map, ht]
          simp [hi]
        have hmapj : (dc.modes.map Mode.modeId)[j]? = some dm.modeId := by
          rw [List.getElem?_map, hdm]
          simp
        have hij : i = j := by
          apply List.getElem?_inj ?_ hmodes (hmapi.trans hmapj.symm)
          rcases List.getElem?_eq_some.mp hmapi with ⟨h, _⟩
          exact h
        omega
      · rw [if_neg hin] at ht
        cases ht

/-- Witness for C2 at the sample alias variable and the two-mode
destination collection. -/
theorem C2_positional_modes_witness :
    copyVariableValues sampleDoc sampleB sampleTokens [] =
      copySpec sampleDoc [] sampleTokens.modes sampleB.valuesByMode :=
  (C2_positional_modes sampleDoc [] sampleB sampleTokens (by decide)).1

/-- C6: when a copied value is an alias to a variable `r` that is not
being moved, the shell's value at the paired destination mode becomes an
alias to the original, unmoved `r` if `r` still resolves, and stays
unset if `r` no longer resolves; literal values at other positions are
still copied; and the Phase 2 success/error counters are determined by
shell existence and the copy-call oracle alone, so an unresolvable alias
is neither counted as an error nor aborts the loop. -/
theorem C6_cross_collection_alias (doc : Doc) (o : Oracle)
    (im : List (String × Variable)) (v : Variable) (dc : VariableCollection)
    (hnd : (v.valuesByMode.map Prod.fst).Nodup)
    (hmodes : (dc.modes.map Mode.modeId).Nodup)
    (i : Nat) (k r : String) (dm : Mode)
    (hval : v.valuesByMode[i]? = some (k, Value.varAlias r))
    (hdm : dc.modes[i]? = some dm)
    (hmap : assocGet im r = none) :
    (∀ rv, doc.getVariableById r = some rv →
      assocGet (applyValueCalls [] (copyVariableValues doc v dc im)) dm.modeId
        = some (Value.varAlias r))
    ∧ (doc.getVariableById r = none →
      assocGet (applyValueCalls [] (copyVariableValues doc v dc im)) dm.modeId = none)
    ∧ (∀ (j : Nat) (kj : String) (xj : String) (dmj : Mode),
        v.valuesByMode[j]? = some (kj, Value.lit xj) → dc.modes[j]? = some dmj →
        assocGet (applyValueCalls [] (copyVariableValues doc v dc im)) dmj.modeId
          = some (Value.lit xj))
    ∧ (∀ (l : List Variable) (d : Doc),
        (phase2 o dc im d l).successCount
          = l.countP (fun w => (assocGet im w.id).isSome && o.copyOk w.id)
        ∧ (phase2 o dc im d l).successCount + (phase2 o dc im d l).errorCount
          = l.length) := by
  have hspec := copyVariableValues_eq_copySpec doc im v dc hnd
  have hknd := copySpec_keys_nodup doc im v.valuesByMode hmodes
  refine ⟨?_, ?_, ?_, ?_⟩
  · intro rv hrv
    rw [hspec, applyValueCalls_nil_acc hknd]
    rw [copySpec_assocGet doc im hmodes hdm hval]
    simp [pairValue, hmap, hrv, getVariableById_id hrv]
  · intro hnone
    rw [hspec, applyValueCalls_nil_acc hknd]
    rw [copySpec_assocGet doc im hmodes hdm hval]
    simp [pairValue, hmap, hnone]
  · intro j kj xj dmj hvj hdmj
    rw [hspec, applyValueCalls_nil_acc hknd]
    rw [copySpec_assocGet doc im hmodes hdmj hvj]
    simp [pairValue]
  · intro l d
    exact ⟨phase2_successCount_eq o dc im l d, phase2_count_sum o dc im l d⟩

/-- Witness for C6: move only `sampleB`; its alias target `A` is not in
the identity map and still resolves in the document. -/
theorem C6_cross_collection_alias_witness :
    assocGet (applyValueCalls [] (copyVariableValues sampleDoc sampleB sampleTokens []))
      (Mode.mk "t1" "Light").modeId = some (Value.varAlias "A") :=
  (C6_cross_collection_alias sampleDoc sampleOracle [] sampleB sampleTokens
    (by decide) (by decide) 0 "m1" "A" (Mode.mk "t1" "Light")
    (by rfl) (by rfl) (by rfl)).1
    sampleA (by rfl)

/-- C7: `rebindVariable` is total in its result.  A scalar binding on a
node without the set-bound-variable capability yields `false`; a
sequence binding on any property other than fills/strokes/effects
yields `false`; an absent sequence property or an out-of-range index
yields `false` with the node untouched; an in-range fills rebind clones
the sequence, replaces exactly the indexed entry, and writes the whole
sequence back; a host failure (`hostOk = false`) yields `false` with
the node untouched; and any `Except.error` of the `try` body is caught
and converted to `false`. -/
theorem C7_rebind_total (hostOk : Bool) (node : Node) (property : String)
    (newVariable : Variable) (bindingIndex : Nat) (isArrayBinding : Bool) :
    (isArrayBinding = false → node.hasSetBoundVariable = false →
      rebindVariable hostOk node property newVariable bindingIndex false = (false, node))
    ∧ (isArrayBinding = false → node.hasSetBoundVariable = true → hostOk = true →
      rebindVariable hostOk node property newVariable bindingIndex false =
        (true, node.setBoundVariable property newVariable))
    ∧ (property ∉ (["fills", "strokes", "effects"] : List String) →
      rebindVariable hostOk node property newVariable bindingIndex true = (false, node))
    ∧ (node.fills = none →
      rebindVariable hostOk node "fills" newVariable bindingIndex true = (false, node))
    ∧ (∀ l, node.fills = some l → l.length ≤ bindingIndex →
      rebindVariable hostOk node "fills" newVariable bindingIndex true = (false, node))
    ∧ (∀ l, node.fills = some l → ∀ h : bindingIndex < l.length, hostOk = true →
      rebindVariable hostOk node "fills" newVariable bindingIndex true =
        (true, { node with fills := some (l.set bindingIndex
          (setBoundVariableForPaint (l.get ⟨bindingIndex, h⟩) "color" newVariable)) }))
    ∧ (hostOk = false →
      rebindVariable hostOk node property newVariable bindingIndex isArrayBinding =
        (false, node))
    ∧ (∀ e, rebindTry hostOk node property newVariable bindingIndex isArrayBinding =
        Except.error e →
      rebindVariable hostOk node property newVariable bindingIndex isArrayBinding =
        (false, node)) := by
  refine ⟨?_, ?_, ?_, ?_, ?_, ?_, ?_, ?_⟩
  · intro _ hcap
    simp [rebindVariable, rebindTry, hcap]
  · intro _ hcap hok
    simp [rebindVariable, rebindTry, hcap, hok]
  · intro hprop
    simp only [List.mem_cons, List.not_mem_nil, or_false, not_or] at hprop
    obtain ⟨h1, h2, h3⟩ := hprop
    simp [rebindVariable, rebindTry, beq_eq_false_iff_ne.mpr h1,
      beq_eq_false_iff_ne.mpr h2, beq_eq_false_iff_ne.mpr h3]
  · intro hfills
    simp [rebindVariable, rebindTry, hfills]
  · intro l hfills hlen
    simp [rebindVariable, rebindTry, hfills, Nat.not_lt.mpr hlen]
  · intro l hfills h hok
    simp [rebindVariable, rebindTry, hfills, h, hok, List.get_eq_getElem]
  · intro hok
    subst hok
    cases isArrayBinding
    · by_cases hcap : node.hasSetBoundVariable <;>
        simp [rebindVariable, rebindTry, hcap]
    · by_cases h1 : property = "fills"
      · subst h1
        cases hfills : node.fills with
        | none => simp [rebindVariable, rebindTry, hfills]
        | some l =>
          by_cases hlt : bindingIndex < l.length <;>
            simp [rebindVariable, rebindTry, hfills, hlt]
      · by_cases h2 : property = "strokes"
        · subst h2
          cases hstrokes : node.strokes with
          | none => simp [rebindVariable, rebindTry, hstrokes]
          | some l =>
            by_cases hlt : bindingIndex < l.length <;>
              simp [rebindVariable, rebindTry, hstrokes, hlt]
        · by_cases h3 : property = "effects"
          · subst h3
            cases heffects : node.effects with
            | none => simp [rebindVariable, rebindTry, heffects]
            | some l =>
              by_cases hlt : bindingIndex < l.length <;>
                simp [rebindVariable, rebindTry, heffects, hlt]
          · simp [rebindVariable, rebindTry, beq_eq_false_iff_ne.mpr h1,
              beq_eq_false_iff_ne.mpr h2, beq_eq_false_iff_ne.mpr h3]
  · intro e herr
    simp [rebindVariable, herr]

/-- Witness for C7: a scalar rebind on a node without the capability,
and an out-of-range fills rebind, both return `false` untouched; the
in-range fills rebind replaces exactly the indexed entry. -/
theorem C7_rebind_total_witness :
    rebindVariable true sampleNodePlain "opacity" sampleA 0 false = (false, sampleNodePlain)
    ∧ rebindVariable true sampleNodeFills "fills" sampleA 5 true = (false, sampleNodeFills)
    ∧ rebindVariable true sampleNodeFills "fills" sampleA 1 true =
      (true, { sampleNodeFills with
        fills := some [⟨some "Z", "p0"⟩, ⟨some "A", "p1"⟩] }) := by
  refine ⟨?_, ?_, ?_⟩
  · exact (C7_rebind_total true sampleNodePlain "opacity" sampleA 0 false).1 rfl rfl
  · exact (C7_rebind_total true sampleNodeFills "fills" sampleA 5 true).2.2.2.2.1
      [⟨some "Z", "p0"⟩, ⟨some "A", "p1"⟩] rfl (by decide)
  · have h := (C7_rebind_total true sampleNodeFills "fills" sampleA 1 true).2.2.2.2.2.1
      [⟨some "Z", "p0"⟩, ⟨some "A", "p1"⟩] rfl (by decide) rfl
    rw [h]
    rfl

theorem createVariableInCollection_some_shape {o : Oracle} {v nv : Variable}
    {dc : VariableCollection} (h : createVariableInCollection o v dc = some nv) :
    nv.id = o.newIdOf v.id ∧ nv.valuesByMode = [] ∧ o.createOk v.id = true := by
  unfold createVariableInCollection at h
  by_cases hc : o.createOk v.id = true
  · rw [if_pos hc] at h
    cases h
    exact ⟨rfl, rfl, hc⟩
  · rw [if_neg hc] at h
    cases h

theorem phase1_idMapping (o : Oracle) (dc : VariableCollection) :
    ∀ (l : List Variable) (doc : Doc),
    (phase1 o dc doc l).idMapping
      = l.filterMap (fun v => (createVariableInCollection o v dc).map
          (fun nv => (v.id, nv))) := by
  intro l
  induction l with
  | nil => intro doc; rfl
  | cons v rest ih =>
    intro doc
    cases hcr : createVariableInCollection o v dc with
    | some nv => simp [phase1, hcr, List.filterMap_cons, ih]
    | none => simp [phase1, hcr, List.filterMap_cons, ih]

theorem phase1_doc_vars (o : Oracle) (dc : VariableCollection) :
    ∀ (l : List Variable) (doc : Doc),
    (phase1 o dc doc l).doc.allVariables
      = doc.allVariables ++ ((phase1 o dc doc l).idMapping.map Prod.snd) := by
  intro l
  induction l with
  | nil => intro doc; simp [phase1]
  | cons v rest ih =>
    intro doc
    cases hcr : createVariableInCollection o v dc with
    | some nv =>
      have h := ih (doc.addVariable nv dc.id)
      simp only [phase1, hcr] at *
      rw [h]
      simp [Doc.addVariable]
    | none =>
      have h := ih doc
      simp only [phase1, hcr] at *
      rw [h]

theorem phase1_nodes (o : Oracle) (dc : VariableCollection) :
    ∀ (l : List Variable) (doc : Doc), (phase1 o dc doc l).doc.nodes = doc.nodes := by
  intro l
  induction l with
  | nil => intro doc; rfl
  | cons v rest ih =>
    intro doc
    cases hcr : createVariableInCollection o v dc with
    | some nv =>
      have h := ih (doc.addVariable nv dc.id)
      simp only [phase1, hcr]
      rw [h]
      rfl
    | none =>
      have h := ih doc
      simp only [phase1, hcr]
      rw [h]

theorem phase1_success_eq (o : Oracle) (dc : VariableCollection) :
    ∀ (l : List Variable) (doc : Doc),
    (phase1 o dc doc l).successCount = (phase1 o dc doc l).idMapping.length := by
  intro l
  induction l with
  | nil => intro doc; rfl
  | cons v rest ih =>
    intro doc
    cases hcr : createVariableInCollection o v dc with
    | some nv => simp [phase1, hcr, ih]
    | none => simp [phase1, hcr, ih]

theorem phase1_count_sum (o : Oracle) (dc : VariableCollection) :
    ∀ (l : List Variable) (doc : Doc),
    (phase1 o dc doc l).successCount + (phase1 o dc doc l).errorCount = l.length := by
  intro l
  induction l with
  | nil => intro doc; rfl
  | cons v rest ih =>
    intro doc
    cases hcr : createVariableInCollection o v dc with
    | some nv =>
      have h := ih (doc.addVariable nv dc.id)
      simp only [phase1, hcr, List.length_cons]
      omega
    | none =>
      have h := ih doc
      simp only [phase1, hcr, List.length_cons]
      omega

theorem phase1_keys (o : Oracle) (dc : VariableCollection) (l : List Variable) (doc : Doc) :
    (phase1 o dc doc l).idMapping.map Prod.fst
      = (l.filter (fun v => o.createOk v.id)).map Variable.id := by
  rw [phase1_idMapping]
  induction l with
  | nil => rfl
  | cons v rest ih =>
    cases hco : o.createOk v.id
    · have hcr : createVariableInCollection o v dc = none := by
        simp [createVariableInCollection, hco]
      simp [List.filterMap_cons, List.filter_cons, hcr, hco, ih]
    · have hcr : ∃ nv, createVariableInCollection o v dc = some nv := by
        simp [createVariableInCollection, hco]
      rcases hcr with ⟨nv, hcr⟩
      simp [List.filterMap_cons, List.filter_cons, hcr, hco, ih]

theorem phase1_mem_shape {o : Oracle} {dc : VariableCollection} {l : List Variable}
    {doc : Doc} {p : String × Variable} (hp : p ∈ (phase1 o dc doc l).idMapping) :
    ∃ v ∈ l, p.1 = v.id ∧ createVariableInCollection o v dc = some p.2 := by
  rw [phase1_idMapping] at hp
  rcases List.mem_filterMap.mp hp with ⟨v, hv, heq⟩
  cases hcr : createVariableInCollection o v dc with
  | none => rw [hcr] at heq; cases heq
  | some nv =>
    rw [hcr] at heq
    simp only [Option.map_some', Option.some.injEq] at heq
    exact ⟨v, hv, by rw [← heq], by rw [hcr, ← heq]⟩

theorem valsOf_setVariableValue_self (doc : Doc) (vid k : String) (v : Value) :
    (doc.setVariableValue vid k v).valsOf vid
      = (doc.valsOf vid).map (fun vals => assocSet vals k v) := by
  show ((doc.allVariables.map _).find? _).map _ = _
  unfold Doc.valsOf Doc.getVariableById
  induction doc.allVariables with
  | nil => rfl
  | cons w l ih =>
    cases hw : w.id == vid
    · simp only [List.map_cons, List.find?_cons]
      have hgw : (if w.id == vid then
          { w with valuesByMode := assocSet w.valuesByMode k v } else w) = w := by
        rw [hw]; rfl
      rw [hgw, hw]
      exact ih
    · simp only [List.map_cons, List.find?_cons]
      have hgw : (if w.id == vid then
          { w with valuesByMode := assocSet w.valuesByMode k v } else w)
          = { w with valuesByMode := assocSet w.valuesByMode k v } := by
        rw [hw]; rfl
      rw [hgw]
      have hid : ({ w with valuesByMode := assocSet w.valuesByMode k v } : Variable).id
          = w.id := rfl
      rw [hid, hw]
      rfl

theorem valsOf_setVariableValue_other (doc : Doc) (vid k : String) (v : Value)
    {nid : String} (hne : nid ≠ vid) :
    (doc.setVariableValue vid k v).valsOf nid = doc.valsOf nid := by
  unfold Doc.valsOf Doc.getVariableById Doc.setVariableValue
  induction doc.allVariables with
  | nil => rfl
  | cons w l ih =>
    cases hw : w.id == vid
    · have hgw : (if w.id == vid then
          { w with valuesByMode := assocSet w.valuesByMode k v } else w) = w := by
        rw [hw]; rfl
      simp only [List.map_cons, List.find?_cons, hgw]
      cases hwn : w.id == nid
      · exact ih
      · rfl
    · have hgw : (if w.id == vid then
          { w with valuesByMode := assocSet w.valuesByMode k v } else w)
          = { w with valuesByMode := assocSet w.valuesByMode k v } := by
        rw [hw]; rfl
      simp only [List.map_cons, List.find?_cons, hgw]
      have hwvid : w.id = vid := beq_iff_eq.mp hw
      have hwn : (w.id == nid) = false := by
        rw [beq_eq_false_iff_ne, hwvid]
        exact fun he => hne he.symm
      have hid : ({ w with valuesByMode := assocSet w.valuesByMode k v } : Variable).id
          = w.id := rfl
      rw [hid, hwn]
      exact ih

theorem valsOf_applySetCalls_self (vid : String) :
    ∀ (calls : List (String × Value)) (doc : Doc),
    (applySetCalls doc vid calls).valsOf vid
      = (doc.valsOf vid).map (fun vals => applyValueCalls vals calls) := by
  intro calls
  induction calls with
  | nil =>
    intro doc
    show doc.valsOf vid = _
    cases doc.valsOf vid <;> rfl
  | cons c rest ih =>
    intro doc
    show (applySetCalls (doc.setVariableValue vid c.1 c.2) vid rest).valsOf vid = _
    rw [ih, valsOf_setVariableValue_self]
    cases doc.valsOf vid <;> rfl

theorem valsOf_applySetCalls_other (vid : String) {nid : String} (hne : nid ≠ vid) :
    ∀ (calls : List (String × Value)) (doc : Doc),
    (applySetCalls doc vid calls).valsOf nid = doc.valsOf nid := by
  intro calls
  induction calls with
  | nil => intro doc; rfl
  | cons c rest ih =>
    intro doc
    show (applySetCalls (doc.setVariableValue vid c.1 c.2) vid rest).valsOf nid = _
    rw [ih, valsOf_setVariableValue_other _ _ _ _ hne]

theorem applySetCalls_nodes (vid : String) :
    ∀ (calls : List (String × Value)) (doc : Doc),
    (applySetCalls doc vid calls).nodes = doc.nodes := by
  intro calls
  induction calls with
  | nil => intro doc; rfl
  | cons c rest ih =>
    intro doc
    show (applySetCalls (doc.setVariableValue vid c.1 c.2) vid rest).nodes = _
    rw [ih]
    rfl

theorem setVariableValue_varIds (doc : Doc) (vid k : String) (v : Value) :
    (doc.setVariableValue vid k v).varIds = doc.varIds := by
  unfold Doc.varIds Doc.setVariableValue
  simp only [List.map_map]
  apply List.map_congr_left
  intro w _
  by_cases hw : w.id = vid <;> simp [hw]

theorem applySetCalls_varIds (vid : String) :
    ∀ (calls : List (String × Value)) (doc : Doc),
    (applySetCalls doc vid calls).varIds = doc.varIds := by
  intro calls
  induction calls with
  | nil => intro doc; rfl
  | cons c rest ih =>
    intro doc
    show (applySetCalls (doc.setVariableValue vid c.1 c.2) vid rest).varIds = _
    rw [ih, setVariableValue_varIds]

theorem phase2_nodes (o : Oracle) (dc : VariableCollection)
    (m : List (String × Variable)) :
    ∀ (l : List Variable) (doc : Doc), (phase2 o dc m doc l).doc.nodes = doc.nodes := by
  intro l
  induction l with
  | nil => intro doc; rfl
  | cons v rest ih =>
    intro doc
    cases hm : assocGet m v.id with
    | none => simp only [phase2, hm]; exact ih doc
    | some nv =>
      cases hc : o.copyOk v.id
      · simp only [phase2, hm, hc, Bool.false_eq_true, if_false]
        exact ih doc
      · simp only [phase2, hm, hc, if_true]
        rw [ih, applySetCalls_nodes]

theorem phase2_varIds (o : Oracle) (dc : VariableCollection)
    (m : List (String × Variable)) :
    ∀ (l : List Variable) (doc : Doc), (phase2 o dc m doc l).doc.varIds = doc.varIds := by
  intro l
  induction l with
  | nil => intro doc; rfl
  | cons v rest ih =>
    intro doc
    cases hm : assocGet m v.id with
    | none => simp only [phase2, hm]; exact ih doc
    | some nv =>
      cases hc : o.copyOk v.id
      · simp only [phase2, hm, hc, Bool.false_eq_true, if_false]
        exact ih doc
      · simp only [phase2, hm, hc, if_true]
        rw [ih, applySetCalls_varIds]

theorem phase2_valsOf_other (o : Oracle) (dc : VariableCollection)
    (m : List (String × Variable)) {nid : String} :
    ∀ (l : List Variable) (doc : Doc),
    (∀ v ∈ l, ∀ w, assocGet m v.id = some w → w.id ≠ nid) →
    (phase2 o dc m doc l).doc.valsOf nid = doc.valsOf nid := by
  intro l
  induction l with
  | nil => intro doc _; rfl
  | cons v rest ih =>
    intro doc hl
    have hrest := fun u hu => hl u (List.mem_cons_of_mem _ hu)
    cases hm : assocGet m v.id with
    | none => simp only [phase2, hm]; exact ih doc hrest
    | some nv =>
      have hnv : nv.id ≠ nid := hl v (List.mem_cons_self _ _) nv hm
      cases hc : o.copyOk v.id
      · simp only [phase2, hm, hc, Bool.false_eq_true, if_false]
        exact ih doc hrest
      · simp only [phase2, hm, hc, if_true]
        rw [ih _ hrest, valsOf_applySetCalls_other _ (fun he => hnv he.symm)]

theorem phase2_valsOf_shell (o : Oracle) (dc : VariableCollection)
    (m : List (String × Variable)) {B shellB : Variable}
    (hmapB : assocGet m B.id = some shellB) (hcopyB : o.copyOk B.id = true) :
    ∀ (l : List Variable) (doc : Doc), B ∈ l → (l.map Variable.id).Nodup →
    (∀ v ∈ l, v.id ≠ B.id → ∀ w, assocGet m v.id = some w → w.id ≠ shellB.id) →
    ∃ d', (phase2 o dc m doc l).doc.valsOf shellB.id
      = (doc.valsOf shellB.id).map
          (fun vals => applyValueCalls vals (copyVariableValues d' B dc m)) := by
  intro l
  induction l with
  | nil => intro doc hB; cases hB
  | cons v rest ih =>
    intro doc hB hnd hothers
    rw [List.map_cons, List.nodup_cons] at hnd
    rcases List.mem_cons.mp hB with hveq | hBrest
    · cases hveq
      simp only [phase2, hmapB, hcopyB, if_true]
      have hrest : ∀ u ∈ rest, ∀ w, assocGet m u.id = some w → w.id ≠ shellB.id := by
        intro u hu w hw
        have hune : u.id ≠ B.id := by
          intro he
          exact hnd.1 (he ▸ List.mem_map.mpr ⟨u, hu, rfl⟩)
        exact hothers u (List.mem_cons_of_mem _ hu) hune w hw
      rw [phase2_valsOf_other o dc m rest _ hrest]
      rw [valsOf_applySetCalls_self]
      exact ⟨doc, rfl⟩
    · have hvne : v.id ≠ B.id := by
        intro he
        exact hnd.1 (he ▸ List.mem_map.mpr ⟨B, hBrest, rfl⟩)
      have hothersrest : ∀ u ∈ rest, u.id ≠ B.id → ∀ w,
          assocGet m u.id = some w → w.id ≠ shellB.id :=
        fun u hu => hothers u (List.mem_cons_of_mem _ hu)
      cases hm : assocGet m v.id with
      | none =>
        simp only [phase2, hm]
        exact ih doc hBrest hnd.2 hothersrest
      | some nv =>
        have hnvne : nv.id ≠ shellB.id := hothers v (List.mem_cons_self _ _) hvne nv hm
        cases hc : o.copyOk v.id
        · simp only [phase2, hm, hc, Bool.false_eq_true, if_false]
          exact ih doc hBrest hnd.2 hothersrest
        · simp only [phase2, hm, hc, if_true]
          rcases ih (applySetCalls doc nv.id (copyVariableValues doc v dc m))
            hBrest hnd.2 hothersrest with ⟨d', hd'⟩
          refine ⟨d', ?_⟩
          rw [hd', valsOf_applySetCalls_other _ (fun he => hnvne he.symm)]

theorem phase3_vars (o : Oracle) (m : List (String × Variable)) :
    ∀ (bs : List BindingRec) (doc : Doc),
    (phase3 o m doc bs).doc.allVariables = doc.allVariables := by
  intro bs
  induction bs with
  | nil => intro doc; rfl
  | cons b rest ih =>
    intro doc
    cases hm : assocGet m b.variableId with
    | none => simp only [phase3, hm]; exact ih doc
    | some nv =>
      cases hn : doc.nodes[b.nodeIdx]? with
      | none => simp only [phase3, hm, hn]; exact ih doc
      | some node =>
        simp only [phase3, hm, hn]
        cases hr : (rebindVariable (o.rebindOk b.nodeIdx b.property) node b.property nv
            (b.bindingIndex.getD 0) b.isArrayBinding).1 <;>
          simp only [Bool.false_eq_true, if_false, if_true] <;>
          rw [ih] <;> rfl

theorem phase3_rebinds_shape (o : Oracle) (m : List (String × Variable)) :
    ∀ (bs : List BindingRec) (doc : Doc),
    ∀ p ∈ (phase3 o m doc bs).rebinds, ∃ w, assocGet m p.1 = some w ∧ p.2 = w.id := by
  intro bs
  induction bs with
  | nil => intro doc p hp; cases hp
  | cons b rest ih =>
    intro doc p hp
    cases hm : assocGet m b.variableId with
    | none =>
      simp only [phase3, hm] at hp
      exact ih doc p hp
    | some nv =>
      cases hn : doc.nodes[b.nodeIdx]? with
      | none =>
        simp only [phase3, hm, hn] at hp
        exact ih doc p hp
      | some node =>
        simp only [phase3, hm, hn] at hp
        cases hr : (rebindVariable (o.rebindOk b.nodeIdx b.property) node b.property nv
            (b.bindingIndex.getD 0) b.isArrayBinding).1
        · rw [hr] at hp
          simp only [Bool.false_eq_true, if_false] at hp
          exact ih _ p hp
        · rw [hr] at hp
          simp only [if_true] at hp
          rcases List.mem_cons.mp hp with hpe | hpm
          · rw [hpe]
            exact ⟨nv, hm, rfl⟩
          · exact ih _ p hpm

theorem phase3_congr {o o' : Oracle} (m : List (String × Variable))
    (hro : o.rebindOk = o'.rebindOk) :
    ∀ (bs : List BindingRec) (doc doc' : Doc), doc.nodes = doc'.nodes →
    (phase3 o m doc bs).successCount = (phase3 o' m doc' bs).successCount
    ∧ (phase3 o m doc bs).errorCount = (phase3 o' m doc' bs).errorCount
    ∧ (phase3 o m doc bs).rebinds = (phase3 o' m doc' bs).rebinds
    ∧ (phase3 o m doc bs).doc.nodes = (phase3 o' m doc' bs).doc.nodes := by
  intro bs
  induction bs with
  | nil => intro doc doc' h; exact ⟨rfl, rfl, rfl, h⟩
  | cons b rest ih =>
    intro doc doc' h
    cases hm : assocGet m b.variableId with
    | none =>
      simp only [phase3, hm]
      rcases ih doc doc' h with ⟨h1, h2, h3, h4⟩
      exact ⟨h1, by rw [h2], h3, h4⟩
    | some nv =>
      cases hn : doc.nodes[b.nodeIdx]? with
      | none =>
        have hn' : doc'.nodes[b.nodeIdx]? = none := by rw [← h]; exact hn
        simp only [phase3, hm, hn, hn']
        rcases ih doc doc' h with ⟨h1, h2, h3, h4⟩
        exact ⟨h1, by rw [h2], h3, h4⟩
      | some node =>
        have hn' : doc'.nodes[b.nodeIdx]? = some node := by rw [← h]; exact hn
        simp only [phase3, hm, hn, hn', hro]
        have hsetnodes : (doc.setNode b.nodeIdx
              (rebindVariable (o'.rebindOk b.nodeIdx b.property) node b.property nv
                (b.bindingIndex.getD 0) b.isArrayBinding).2).nodes
            = (doc'.setNode b.nodeIdx
              (rebindVariable (o'.rebindOk b.nodeIdx b.property) node b.property nv
                (b.bindingIndex.getD 0) b.isArrayBinding).2).nodes := by
          show doc.nodes.set _ _ = doc'.nodes.set _ _
          rw [h]
        cases hr : (rebindVariable (o'.rebindOk b.nodeIdx b.property) node b.property nv
            (b.bindingIndex.getD 0) b.isArrayBinding).1
        · simp only [Bool.false_eq_true, if_false]
          rcases ih _ _ hsetnodes with ⟨h1, h2, h3, h4⟩
          exact ⟨h1, by rw [h2], h3, h4⟩
        · simp only [if_true]
          rcases ih _ _ hsetnodes with ⟨h1, h2, h3, h4⟩
          exact ⟨by rw [h1], h2, by rw [h3], h4⟩

theorem find?_eraseP_of_excl {α : Type} {p q : α → Bool}
    (hpq : ∀ x, q x = true → p x = false) :
    ∀ l : List α, (l.eraseP q).find? p = l.find? p := by
  intro l
  induction l with
  | nil => rfl
  | cons a rest ih =>
    cases hq : q a
    · rw [List.eraseP_cons, hq]
      simp only [cond_false]
      rw [List.find?_cons, List.find?_cons]
      cases hp : p a
      · exact ih
      · rfl
    · rw [List.eraseP_cons, hq]
      simp only [cond_true]
      rw [List.find?_cons]
      rw [hpq a hq]

theorem map_eraseP_id (k : String) :
    ∀ l : List Variable,
    (l.eraseP (fun v => v.id == k)).map Variable.id
      = (l.map Variable.id).eraseP (fun s => s == k) := by
  intro l
  induction l with
  | nil => rfl
  | cons w rest ih =>
    cases hw : w.id == k
    · rw [List.eraseP_cons, hw, List.map_cons, List.eraseP_cons, hw]
      simp only [cond_false, List.map_cons]
      rw [ih]
    · rw [List.eraseP_cons, hw, List.map_cons, List.eraseP_cons, hw]
      simp only [cond_true]

theorem removeVariable_varIds (doc : Doc) (k : String) :
    (doc.removeVariable k).varIds = doc.varIds.eraseP (fun s => s == k) := by
  show (doc.allVariables.eraseP (fun v => v.id == k)).map (fun v => v.id) = _
  exact map_eraseP_id k doc.allVariables

theorem getVariableById_none_iff (doc : Doc) (k : String) :
    doc.getVariableById k = none ↔ k ∉ doc.varIds := by
  unfold Doc.getVariableById Doc.varIds
  rw [List.find?_eq_none]
  constructor
  · intro h hmem
    rcases List.mem_map.mp hmem with ⟨v, hv, hid⟩
    exact h v hv (by rw [hid]; exact beq_self_eq_true k)
  · intro h v hv hbeq
    exact h (List.mem_map.mpr ⟨v, hv, beq_iff_eq.mp hbeq⟩)

theorem mem_eraseP_of_ne {k k' : String} (hne : k' ≠ k) :
    ∀ L : List String, k' ∈ L → k' ∈ L.eraseP (fun s => s == k) := by
  intro L
  induction L with
  | nil => intro h; cases h
  | cons a rest ih =>
    intro h
    cases ha : a == k
    · rw [List.eraseP_cons, ha]
      simp only [cond_false]
      rcases List.mem_cons.mp h with he | hm
      · rw [he]
        exact List.mem_cons_self _ _
      · exact List.mem_cons_of_mem _ (ih hm)
    · rw [List.eraseP_cons, ha]
      simp only [cond_true]
      rcases List.mem_cons.mp h with he | hm
      · exact absurd (he.trans (beq_iff_eq.mp ha)) hne
      · exact hm

theorem phase4_deletedIds_exact :
    ∀ (keys : List String) (doc : Doc), keys.Nodup →
    (∀ k ∈ keys, k ∈ doc.varIds) →
    (phase4 doc keys).deletedIds = keys
    ∧ (phase4 doc keys).deleteCount = keys.length := by
  intro keys
  induction keys with
  | nil => intro doc _ _; exact ⟨rfl, rfl⟩
  | cons k rest ih =>
    intro doc hnd hres
    rw [List.nodup_cons] at hnd
    cases hg : doc.getVariableById k with
    | none =>
      exact absurd ((getVariableById_none_iff doc k).mp hg) (by
        intro hni
        exact hni (hres k (List.mem_cons_self _ _)))
    | some w =>
      simp only [phase4, hg]
      have hrest : ∀ k' ∈ rest, k' ∈ (doc.removeVariable k).varIds := by
        intro k' hk'
        rw [removeVariable_varIds]
        have hne : k' ≠ k := fun he => hnd.1 (he ▸ hk')
        exact mem_eraseP_of_ne hne _ (hres k' (List.mem_cons_of_mem _ hk'))
      rcases ih (doc.removeVariable k) hnd.2 hrest with ⟨h1, h2⟩
      exact ⟨by rw [h1], by rw [h2]; rfl⟩

theorem phase4_deleteCount_le :
    ∀ (keys : List String) (doc : Doc), (phase4 doc keys).deleteCount ≤ keys.length := by
  intro keys
  induction keys with
  | nil => intro doc; exact Nat.le_refl 0
  | cons k rest ih =>
    intro doc
    cases hg : doc.getVariableById k with
    | none =>
      simp only [phase4, hg]
      exact Nat.le_succ_of_le (ih doc)
    | some w =>
      simp only [phase4, hg, List.length_cons]
      exact Nat.succ_le_succ (ih _)

theorem phase4_valsOf_preserved {nid : String} :
    ∀ (keys : List String) (doc : Doc), nid ∉ keys →
    (phase4 doc keys).doc.valsOf nid = doc.valsOf nid := by
  intro keys
  induction keys with
  | nil => intro doc _; rfl
  | cons k rest ih =>
    intro doc hni
    have hne : nid ≠ k := fun he => hni (he ▸ List.mem_cons_self _ _)
    have hnirest : nid ∉ rest := fun hm => hni (List.mem_cons_of_mem _ hm)
    cases hg : doc.getVariableById k with
    | none =>
      simp only [phase4, hg]
      exact ih doc hnirest
    | some w =>
      simp only [phase4, hg]
      rw [ih _ hnirest]
      show ((doc.allVariables.eraseP (fun v => v.id == k)).find?
        (fun v => v.id == nid)).map _ = _
      rw [find?_eraseP_of_excl ?hx]
      · rfl
      case hx =>
        intro v hv
        rw [beq_eq_false_iff_ne]
        intro hcon
        exact hne (hcon ▸ beq_iff_eq.mp hv)

theorem phase4_presence_preserved {nid : String} :
    ∀ (keys : List String) (doc : Doc), nid ∉ keys → nid ∈ doc.varIds →
    nid ∈ (phase4 doc keys).doc.varIds := by
  intro keys
  induction keys with
  | nil => intro doc _ h; exact h
  | cons k rest ih =>
    intro doc hni hmem
    have hne : nid ≠ k := fun he => hni (he ▸ List.mem_cons_self _ _)
    have hnirest : nid ∉ rest := fun hm => hni (List.mem_cons_of_mem _ hm)
    cases hg : doc.getVariableById k with
    | none =>
      simp only [phase4, hg]
      exact ih doc hnirest hmem
    | some w =>
      simp only [phase4, hg]
      apply ih _ hnirest
      rw [removeVariable_varIds]
      exact mem_eraseP_of_ne hne _ hmem

theorem phase4_congr :
    ∀ (keys : List String) (doc doc' : Doc), doc.varIds = doc'.varIds →
    (phase4 doc keys).deleteCount = (phase4 doc' keys).deleteCount
    ∧ (phase4 doc keys).deletedIds = (phase4 doc' keys).deletedIds := by
  intro keys
  induction keys with
  | nil => intro doc doc' _; exact ⟨rfl, rfl⟩
  | cons k rest ih =>
    intro doc doc' h
    cases hg : doc.getVariableById k with
    | none =>
      have hg' : doc'.getVariableById k = none := by
        rw [getVariableById_none_iff, ← h]
        exact (getVariableById_none_iff doc k).mp hg
      simp only [phase4, hg, hg']
      exact ih doc doc' h
    | some w =>
      have hg' : ∃ w', doc'.getVariableById k = some w' := by
        cases hgg : doc'.getVariableById k with
        | some w' => exact ⟨w', rfl⟩
        | none =>
          have := (getVariableById_none_iff doc' k).mp hgg
          rw [← h] at this
          have hsome : doc.getVariableById k ≠ none := by rw [hg]; intro hc; cases hc
          rw [Ne, getVariableById_none_iff] at hsome
          exact absurd this hsome
      rcases hg' with ⟨w', hg'⟩
      simp only [phase4, hg, hg']
      have hrem : (doc.removeVariable k).varIds = (doc'.removeVariable k).varIds := by
        rw [removeVariable_varIds, removeVariable_varIds, h]
      rcases ih _ _ hrem with ⟨h1, h2⟩
      exact ⟨by rw [h1], by rw [h2]⟩

theorem length_filter_split {α : Type} (p : α → Bool) :
    ∀ l : List α, (l.filter p).length + (l.filter (fun a => !p a)).length = l.length := by
  intro l
  induction l with
  | nil => rfl
  | cons a rest ih =>
    cases ha : p a <;> simp only [List.filter_cons, ha, Bool.not_true, Bool.not_false,
      if_true, if_false, List.length_cons, Bool.false_eq_true, Bool.true_eq_false] <;>
      omega

theorem createVariableInCollection_congr {o o' : Oracle} (h1 : o.createOk = o'.createOk)
    (h2 : o.newIdOf = o'.newIdOf) (v : Variable) (dc : VariableCollection) :
    createVariableInCollection o v dc = createVariableInCollection o' v dc := by
  unfold createVariableInCollection
  rw [h1, h2]

theorem phase1_congr {o o' : Oracle} (h1 : o.createOk = o'.createOk)
    (h2 : o.newIdOf = o'.newIdOf) (dc : VariableCollection) :
    ∀ (l : List Variable) (doc : Doc), phase1 o dc doc l = phase1 o' dc doc l := by
  intro l
  induction l with
  | nil => intro doc; rfl
  | cons v rest ih =>
    intro doc
    have hc := createVariableInCollection_congr h1 h2 v dc
    cases hcr : createVariableInCollection o' v dc with
    | some nv =>
      rw [hcr] at hc
      simp only [phase1, hc, hcr]
      rw [ih]
    | none =>
      rw [hcr] at hc
      simp only [phase1, hc, hcr]
      rw [ih]

theorem findAllVariableBindings_congr {doc doc' : Doc} (h : doc.nodes = doc'.nodes)
    (ids : List String) :
    findAllVariableBindings doc ids = findAllVariableBindings doc' ids := by
  unfold findAllVariableBindings
  rw [h]

theorem phase3_varIds (o : Oracle) (m : List (String × Variable))
    (bs : List BindingRec) (doc : Doc) :
    (phase3 o m doc bs).doc.varIds = doc.varIds := by
  unfold Doc.varIds
  rw [phase3_vars]

theorem find?_eq_some_unique {α : Type} {p : α → Bool} {a : α} :
    ∀ {l : List α}, a ∈ l → p a = true → (∀ x ∈ l, p x = true → x = a) →
    l.find? p = some a := by
  intro l
  induction l with
  | nil => intro h; cases h
  | cons x rest ih =>
    intro hmem hpa huniq
    cases hx : p x with
    | true =>
      rw [List.find?_cons, hx]
      rw [huniq x (List.mem_cons_self _ _) hx]
    | false =>
      rw [List.find?_cons, hx]
      have hax : a ≠ x := fun he => by rw [he] at hpa; rw [hpa] at hx; cases hx
      rcases List.mem_cons.mp hmem with he | hm
      · exact absurd he hax
      · exact ih hm hpa (fun y hy => huniq y (List.mem_cons_of_mem _ hy))

theorem valsOf_congr {doc doc' : Doc} (h : doc.allVariables = doc'.allVariables)
    (nid : String) : doc.valsOf nid = doc'.valsOf nid := by
  unfold Doc.valsOf Doc.getVariableById
  rw [h]

/-- C9: every completion response reports `successCount` and
`errorCount` summing to the number of movable (non-duplicate, resolved)
variables, `skippedCount` is the duplicate count (so the three sum to
the resolved-selection size), `deletedCount` never exceeds
`successCount`, and the whole response is unchanged under any change to
the Phase 2 copy oracle — value-copy failures are invisible in it. -/
theorem C9_completion_counters (o o' : Oracle) (doc : Doc) (dc : VariableCollection)
    (dups safe : List Variable)
    (h1 : o.createOk = o'.createOk) (h2 : o.newIdOf = o'.newIdOf)
    (h3 : o.rebindOk = o'.rebindOk) :
    ∃ s e rs re d,
      (executeMove o doc dc dups safe).messages
        = [UIMessage.moveComplete s e dups.length rs re d dc.name]
      ∧ s + e = safe.length
      ∧ d ≤ s
      ∧ (executeMove o' doc dc dups safe).messages
          = (executeMove o doc dc dups safe).messages
      ∧ (∀ (vtm : List Variable) (ns : List String),
          findDuplicateNames vtm ns = ⟨dups, safe⟩ →
          s + e + dups.length = vtm.length) := by
  refine ⟨(phase1 o dc doc safe).successCount, (phase1 o dc doc safe).errorCount,
    (phase3 o (phase1 o dc doc safe).idMapping
      (phase2 o dc (phase1 o dc doc safe).idMapping (phase1 o dc doc safe).doc safe).doc
      (findAllVariableBindings
        (phase2 o dc (phase1 o dc doc safe).idMapping
          (phase1 o dc doc safe).doc safe).doc
        ((phase1 o dc doc safe).idMapping.map Prod.fst))).successCount,
    (phase3 o (phase1 o dc doc safe).idMapping
      (phase2 o dc (phase1 o dc doc safe).idMapping (phase1 o dc doc safe).doc safe).doc
      (findAllVariableBindings
        (phase2 o dc (phase1 o dc doc safe).idMapping
          (phase1 o dc doc safe).doc safe).doc
        ((phase1 o dc doc safe).idMapping.map Prod.fst))).errorCount,
    (phase4
      (phase3 o (phase1 o dc doc safe).idMapping
        (phase2 o dc (phase1 o dc doc safe).idMapping
          (phase1 o dc doc safe).doc safe).doc
        (findAllVariableBindings
          (phase2 o dc (phase1 o dc doc safe).idMapping
            (phase1 o dc doc safe).doc safe).doc
          ((phase1 o dc doc safe).idMapping.map Prod.fst))).doc
      ((phase1 o dc doc safe).idMapping.map Prod.fst)).deleteCount,
    ?hmsg, ?hsum, ?hd, ?hind, ?hpart⟩
  case hmsg =>
    simp only [executeMove]
  case hsum => exact phase1_count_sum o dc safe doc
  case hd =>
    rw [phase1_success_eq]
    calc (phase4 _ ((phase1 o dc doc safe).idMapping.map Prod.fst)).deleteCount
        ≤ ((phase1 o dc doc safe).idMapping.map Prod.fst).length :=
          phase4_deleteCount_le _ _
      _ = (phase1 o dc doc safe).idMapping.length := List.length_map _ _
  case hind =>
    have hp1 : phase1 o' dc doc safe = phase1 o dc doc safe :=
      phase1_congr h1.symm h2.symm dc safe doc
    have hm := congrArg Phase1Result.idMapping hp1
    have hd1 := congrArg Phase1Result.doc hp1
    have hs1 := congrArg Phase1Result.successCount hp1
    have he1 := congrArg Phase1Result.errorCount hp1
    set m := (phase1 o dc doc safe).idMapping with hmdef
    set doc1 := (phase1 o dc doc safe).doc with hd1def
    have hn2 : (phase2 o' dc m doc1 safe).doc.nodes
        = (phase2 o dc m doc1 safe).doc.nodes := by
      rw [phase2_nodes, phase2_nodes]
    have hv2 : (phase2 o' dc m doc1 safe).doc.varIds
        = (phase2 o dc m doc1 safe).doc.varIds := by
      rw [phase2_varIds, phase2_varIds]
    have hbind : findAllVariableBindings (phase2 o' dc m doc1 safe).doc
          (m.map Prod.fst)
        = findAllVariableBindings (phase2 o dc m doc1 safe).doc (m.map Prod.fst) :=
      findAllVariableBindings_congr hn2 _
    have hp3 := phase3_congr m h3.symm
      (findAllVariableBindings (phase2 o dc m doc1 safe).doc (m.map Prod.fst))
      (phase2 o' dc m doc1 safe).doc (phase2 o dc m doc1 safe).doc hn2
    have hv3 : (phase3 o' m (phase2 o' dc m doc1 safe).doc
          (findAllVariableBindings (phase2 o dc m doc1 safe).doc
            (m.map Prod.fst))).doc.varIds
        = (phase3 o m (phase2 o dc m doc1 safe).doc
          (findAllVariableBindings (phase2 o dc m doc1 safe).doc
            (m.map Prod.fst))).doc.varIds := by
      rw [phase3_varIds, phase3_varIds, hv2]
    have hp4 := phase4_congr (m.map Prod.fst) _ _ hv3
    simp only [executeMove]
    rw [hp1, hbind]
    rw [hp3.1, hp3.2.1, hp4.1]
  case hpart =>
    intro vtm ns hpart
    have hdup := findDuplicateNames_duplicates_eq vtm ns
    have hcan := findDuplicateNames_canMove_eq vtm ns
    rw [hpart] at hdup hcan
    simp only at hdup hcan
    rw [phase1_count_sum o dc safe doc, hdup, hcan]
    have := length_filter_split (fun v => ns.contains v.name) vtm
    omega

/-- Witness for C9 on the sample document, with the copy oracle flipped
from all-success to all-failure. -/
theorem C9_completion_counters_witness :
    ∃ s e rs re d,
      (executeMove sampleOracle sampleDoc sampleTokens [] [sampleA, sampleB]).messages
        = [UIMessage.moveComplete s e ([] : List Variable).length rs re d
            sampleTokens.name]
      ∧ s + e = [sampleA, sampleB].length
      ∧ d ≤ s
      ∧ (executeMove sampleOracleFailCopy sampleDoc sampleTokens []
          [sampleA, sampleB]).messages
        = (executeMove sampleOracle sampleDoc sampleTokens [] [sampleA, sampleB]).messages := by
  rcases C9_completion_counters sampleOracle sampleOracleFailCopy sampleDoc sampleTokens
    [] [sampleA, sampleB] rfl rfl rfl with ⟨s, e, rs, re, d, hmsg, hsum, hd, hind, _⟩
  exact ⟨s, e, rs, re, d, hmsg, hsum, hd, hind⟩

theorem executeMove_keys (o : Oracle) (doc : Doc) (dc : VariableCollection)
    (dups safe : List Variable) :
    (executeMove o doc dc dups safe).idMapping.map Prod.fst
      = (safe.filter (fun v => o.createOk v.id)).map Variable.id := by
  show (phase1 o dc doc safe).idMapping.map Prod.fst = _
  exact phase1_keys o dc safe doc

theorem executeMove_keys_nodup (o : Oracle) {doc : Doc} {dc : VariableCollection}
    {dups safe : List Variable} (hnd : (safe.map Variable.id).Nodup) :
    ((executeMove o doc dc dups safe).idMapping.map Prod.fst).Nodup := by
  rw [executeMove_keys]
  exact ((@List.filter_sublist _ (fun v => o.createOk v.id) safe).map Variable.id).nodup hnd

/-- C3: Phase 4 deletes exactly the originals whose identity is an
`identityMap` key — the ids of the variables whose Phase 1 creation
succeeded — independent of the Phase 2/3 outcomes for those keys; a
variable whose Phase 1 creation failed is never deleted, survives in
the document, and no binding is ever rebound away from its identity. -/
theorem C3_deletion_scope (o : Oracle) (doc : Doc) (dc : VariableCollection)
    (dups safe : List Variable)
    (hnd : (safe.map Variable.id).Nodup)
    (hsub : ∀ v ∈ safe, v.id ∈ doc.varIds) :
    (executeMove o doc dc dups safe).deletedIds
        = (executeMove o doc dc dups safe).idMapping.map Prod.fst
    ∧ (executeMove o doc dc dups safe).idMapping.map Prod.fst
        = (safe.filter (fun v => o.createOk v.id)).map Variable.id
    ∧ ∀ X ∈ safe, o.createOk X.id = false →
        X.id ∉ (executeMove o doc dc dups safe).deletedIds
        ∧ X.id ∈ (executeMove o doc dc dups safe).doc.varIds
        ∧ ∀ p ∈ (executeMove o doc dc dups safe).rebinds, p.1 ≠ X.id := by
  have hkeys := executeMove_keys o doc dc dups safe
  have hkeysnd := @executeMove_keys_nodup o doc dc dups safe hnd
  -- the pipeline pieces
  have hmem_keys_doc : ∀ k ∈ (phase1 o dc doc safe).idMapping.map Prod.fst,
      k ∈ doc.varIds := by
    intro k hk
    have hk' : k ∈ (safe.filter (fun v => o.createOk v.id)).map Variable.id := by
      rw [← phase1_keys o dc safe doc]
      exact hk
    rcases List.mem_map.mp hk' with ⟨v, hv, hid⟩
    exact hid ▸ hsub v (List.mem_filter.mp hv).1
  have hvar1 : ∀ k ∈ doc.varIds, k ∈ (phase1 o dc doc safe).doc.varIds := by
    intro k hk
    show k ∈ (phase1 o dc doc safe).doc.allVariables.map _
    rw [phase1_doc_vars, List.map_append]
    exact List.mem_append_left _ hk
  have hvar2 : ∀ k, k ∈ (phase1 o dc doc safe).doc.varIds →
      k ∈ (phase2 o dc (phase1 o dc doc safe).idMapping
        (phase1 o dc doc safe).doc safe).doc.varIds := by
    intro k hk
    rw [phase2_varIds]
    exact hk
  have hvar3 : ∀ k bs, k ∈ (phase2 o dc (phase1 o dc doc safe).idMapping
        (phase1 o dc doc safe).doc safe).doc.varIds →
      k ∈ (phase3 o (phase1 o dc doc safe).idMapping
        (phase2 o dc (phase1 o dc doc safe).idMapping
          (phase1 o dc doc safe).doc safe).doc bs).doc.varIds := by
    intro k bs hk
    rw [phase3_varIds]
    exact hk
  have hres : ∀ k ∈ (phase1 o dc doc safe).idMapping.map Prod.fst,
      k ∈ (phase3 o (phase1 o dc doc safe).idMapping
        (phase2 o dc (phase1 o dc doc safe).idMapping
          (phase1 o dc doc safe).doc safe).doc
        (findAllVariableBindings
          (phase2 o dc (phase1 o dc doc safe).idMapping
            (phase1 o dc doc safe).doc safe).doc
          ((phase1 o dc doc safe).idMapping.map Prod.fst))).doc.varIds := by
    intro k hk
    exact hvar3 k _ (hvar2 k (hvar1 k (hmem_keys_doc k hk)))
  have hexact := phase4_deletedIds_exact ((phase1 o dc doc safe).idMapping.map Prod.fst)
    _ hkeysnd hres
  refine ⟨hexact.1, hkeys, ?_⟩
  intro X hX hcX
  have hXnotkey : X.id ∉ (executeMove o doc dc dups safe).idMapping.map Prod.fst := by
    rw [hkeys]
    intro hmem
    rcases List.mem_map.mp hmem with ⟨v, hv, hid⟩
    rcases List.mem_filter.mp hv with ⟨_, hok⟩
    rw [hid] at hok
    rw [hok] at hcX
    cases hcX
  refine ⟨?_, ?_, ?_⟩
  · show X.id ∉ (phase4 _ ((phase1 o dc doc safe).idMapping.map Prod.fst)).deletedIds
    rw [hexact.1]
    exact hXnotkey
  · show X.id ∈ (phase4 _ ((phase1 o dc doc safe).idMapping.map Prod.fst)).doc.varIds
    apply phase4_presence_preserved _ _ hXnotkey
    exact hvar3 X.id _ (hvar2 X.id (hvar1 X.id (hsub X hX)))
  · intro p hp hpe
    have := phase3_rebinds_shape o (phase1 o dc doc safe).idMapping _ _ p hp
    rcases this with ⟨w, hw, _⟩
    have hpmem : p.1 ∈ (phase1 o dc doc safe).idMapping.map Prod.fst :=
      List.mem_map.mpr ⟨(p.1, w), assocGet_mem hw, rfl⟩
    rw [hpe] at hpmem
    exact hXnotkey hpmem

/-- Witness for C3: creation fails for `A`, so `A` is not deleted and
survives, while the deletion trace equals the identity-map key set. -/
theorem C3_deletion_scope_witness :
    (executeMove sampleOracleFailA sampleDoc sampleTokens [] [sampleA, sampleB]).deletedIds
      = (executeMove sampleOracleFailA sampleDoc sampleTokens []
          [sampleA, sampleB]).idMapping.map Prod.fst
    ∧ "A" ∉ (executeMove sampleOracleFailA sampleDoc sampleTokens []
        [sampleA, sampleB]).deletedIds
    ∧ "A" ∈ (executeMove sampleOracleFailA sampleDoc sampleTokens []
        [sampleA, sampleB]).doc.varIds := by
  have h := C3_deletion_scope sampleOracleFailA sampleDoc sampleTokens []
    [sampleA, sampleB] (by decide) (by decide)
  have hA := h.2.2 sampleA (List.mem_cons_self _ _) (by decide)
  exact ⟨h.1, hA.1, hA.2.1⟩

/-- C1: if `A` and `B` are both moved (both shells created), and `B`'s
value at the i-th paired mode is an alias to `A`'s identity, then after
Phase 2 the value of `B`'s shell at the i-th destination mode is an
alias to `A`'s shell — the `identityMap` entry for `A`, whose id is the
host-assigned fresh id, not original `A` — and this holds for any order
of `safeToMove`. -/
theorem C1_intra_move_alias (o : Oracle) (doc : Doc) (dc : VariableCollection)
    (dups safe : List Variable) (A B : Variable) (i : Nat) (k : String) (dm : Mode)
    (hA : A ∈ safe) (hB : B ∈ safe)
    (hcA : o.createOk A.id = true) (hcB : o.createOk B.id = true)
    (hcopyB : o.copyOk B.id = true)
    (hndsafe : (safe.map Variable.id).Nodup)
    (hndB : (B.valuesByMode.map Prod.fst).Nodup)
    (hndmodes : (dc.modes.map Mode.modeId).Nodup)
    (hsub : ∀ v ∈ safe, v.id ∈ doc.varIds)
    (hfresh : ∀ v ∈ safe, o.newIdOf v.id ∉ doc.varIds)
    (hinj : ∀ v ∈ safe, ∀ u ∈ safe, o.newIdOf v.id = o.newIdOf u.id → v.id = u.id)
    (hvali : B.valuesByMode[i]? = some (k, Value.varAlias A.id))
    (hdm : dc.modes[i]? = some dm) :
    ∃ shellA, assocGet (executeMove o doc dc dups safe).idMapping A.id = some shellA
      ∧ shellA.id = o.newIdOf A.id
      ∧ o.newIdOf A.id ≠ A.id
      ∧ ∃ vals, (executeMove o doc dc dups safe).doc.valsOf (o.newIdOf B.id) = some vals
          ∧ assocGet vals dm.modeId = some (Value.varAlias (o.newIdOf A.id)) := by
  have hmchar := phase1_idMapping o dc safe doc
  have hkeychar := phase1_keys o dc safe doc
  have hkeysnd : ((phase1 o dc doc safe).idMapping.map Prod.fst).Nodup := by
    rw [hkeychar]
    exact ((@List.filter_sublist _ (fun v => o.createOk v.id) safe).map Variable.id).nodup
      hndsafe
  -- A's and B's shells and their identity-map entries
  have hexA : ∃ nv, createVariableInCollection o A dc = some nv := by
    simp [createVariableInCollection, hcA]
  rcases hexA with ⟨shellA, hcrA⟩
  have hshA := createVariableInCollection_some_shape hcrA
  have hmemA : (A.id, shellA) ∈ (phase1 o dc doc safe).idMapping := by
    rw [hmchar]
    exact List.mem_filterMap.mpr ⟨A, hA, by rw [hcrA]; rfl⟩
  have hmapA : assocGet (phase1 o dc doc safe).idMapping A.id = some shellA :=
    assocGet_of_nodup hkeysnd hmemA
  have hexB : ∃ nv, createVariableInCollection o B dc = some nv := by
    simp [createVariableInCollection, hcB]
  rcases hexB with ⟨shellB, hcrB⟩
  have hshB := createVariableInCollection_some_shape hcrB
  have hmemB : (B.id, shellB) ∈ (phase1 o dc doc safe).idMapping := by
    rw [hmchar]
    exact List.mem_filterMap.mpr ⟨B, hB, by rw [hcrB]; rfl⟩
  have hmapB : assocGet (phase1 o dc doc safe).idMapping B.id = some shellB :=
    assocGet_of_nodup hkeysnd hmemB
  -- the fresh id is not original A's id
  have hAne : o.newIdOf A.id ≠ A.id := by
    intro he
    have hmem : A.id ∈ doc.varIds := hsub A hA
    rw [← he] at hmem
    exact hfresh A hA hmem
  -- after Phase 1, B's shell resolves to an empty valuesByMode
  have hvals1 : (phase1 o dc doc safe).doc.valsOf shellB.id = some [] := by
    unfold Doc.valsOf Doc.getVariableById
    rw [phase1_doc_vars, List.find?_append]
    have hleft : doc.allVariables.find? (fun v => v.id == shellB.id) = none := by
      rw [List.find?_eq_none]
      intro w hw hbeq
      have hwid : w.id = shellB.id := beq_iff_eq.mp hbeq
      have hwmem : shellB.id ∈ doc.varIds := by
        rw [← hwid]
        exact List.mem_map.mpr ⟨w, hw, rfl⟩
      rw [hshB.1] at hwmem
      exact hfresh B hB hwmem
    have hright : ((phase1 o dc doc safe).idMapping.map Prod.snd).find?
        (fun v => v.id == shellB.id) = some shellB := by
      have hmemsnd : shellB ∈ (phase1 o dc doc safe).idMapping.map Prod.snd :=
        List.mem_map.mpr ⟨(B.id, shellB), hmemB, rfl⟩
      refine find?_eq_some_unique hmemsnd ?_ ?_
      · exact beq_self_eq_true _
      intro s hs hps
      rcases List.mem_map.mp hs with ⟨p, hp, hps2⟩
      rcases phase1_mem_shape hp with ⟨v, hv, hpid, hcrv⟩
      have hsid : s.id = o.newIdOf v.id := by
        rw [← hps2]
        exact (createVariableInCollection_some_shape hcrv).1
      have hnn : o.newIdOf v.id = o.newIdOf B.id := by
        rw [← hsid, beq_iff_eq.mp hps, hshB.1]
      have hvB : v.id = B.id := hinj v hv B hB hnn
      have hveq : v = B := List.inj_on_of_nodup_map hndsafe hv hB hvB
      rw [hveq, hcrB] at hcrv
      rw [← hps2, ← Option.some.inj hcrv]
    rw [hleft, hright]
    rw [Option.none_or, Option.map_some', hshB.2.1]
  -- no other iteration of Phase 2 touches B's shell
  have hothers : ∀ v ∈ safe, v.id ≠ B.id → ∀ w,
      assocGet (phase1 o dc doc safe).idMapping v.id = some w → w.id ≠ shellB.id := by
    intro v hv hvne w hw hcon
    rcases phase1_mem_shape (assocGet_mem hw) with ⟨u, hu, hpid, hcru⟩
    have hwid : w.id = o.newIdOf u.id := (createVariableInCollection_some_shape hcru).1
    have hnn : o.newIdOf u.id = o.newIdOf B.id := by
      rw [← hwid, hcon, hshB.1]
    have huB : u.id = B.id := hinj u hu B hB hnn
    exact hvne (hpid.trans huB)
  rcases phase2_valsOf_shell o dc (phase1 o dc doc safe).idMapping hmapB hcopyB safe
    (phase1 o dc doc safe).doc hB hndsafe hothers with ⟨d', hd'⟩
  rw [hvals1] at hd'
  have hv2 : (phase2 o dc (phase1 o dc doc safe).idMapping
        (phase1 o dc doc safe).doc safe).doc.valsOf shellB.id
      = some (applyValueCalls []
          (copyVariableValues d' B dc (phase1 o dc doc safe).idMapping)) := by
    rw [hd']
    rfl
  rw [copyVariableValues_eq_copySpec d' (phase1 o dc doc safe).idMapping B dc hndB] at hv2
  rw [applyValueCalls_nil_acc
    (copySpec_keys_nodup d' (phase1 o dc doc safe).idMapping B.valuesByMode hndmodes)]
    at hv2
  -- the value at the paired destination mode aliases A's shell
  have hget : assocGet (copySpec d' (phase1 o dc doc safe).idMapping dc.modes
        B.valuesByMode) dm.modeId = some (Value.varAlias shellA.id) := by
    rw [copySpec_assocGet d' (phase1 o dc doc safe).idMapping hndmodes hdm hvali]
    simp [pairValue, hmapA]
  -- transport through Phases 3 and 4
  have hshellBnotkey : shellB.id ∉ (phase1 o dc doc safe).idMapping.map Prod.fst := by
    rw [hshB.1, hkeychar]
    intro hmem
    rcases List.mem_map.mp hmem with ⟨v, hvf, hid⟩
    rcases List.mem_filter.mp hvf with ⟨hvmem, _⟩
    have : o.newIdOf B.id ∈ doc.varIds := by
      rw [← hid]
      exact hsub v hvmem
    exact hfresh B hB this
  refine ⟨shellA, hmapA, hshA.1, hAne,
    copySpec d' (phase1 o dc doc safe).idMapping dc.modes B.valuesByMode, ?_, ?_⟩
  · show (phase4 (phase3 o (phase1 o dc doc safe).idMapping
        (phase2 o dc (phase1 o dc doc safe).idMapping
          (phase1 o dc doc safe).doc safe).doc
        (findAllVariableBindings
          (phase2 o dc (phase1 o dc doc safe).idMapping
            (phase1 o dc doc safe).doc safe).doc
          ((phase1 o dc doc safe).idMapping.map Prod.fst))).doc
      ((phase1 o dc doc safe).idMapping.map Prod.fst)).doc.valsOf (o.newIdOf B.id)
      = some (copySpec d' (phase1 o dc doc safe).idMapping dc.modes B.valuesByMode)
    rw [← hshB.1]
    rw [phase4_valsOf_preserved _ _ hshellBnotkey]
    rw [valsOf_congr (phase3_vars o (phase1 o dc doc safe).idMapping _ _) shellB.id]
    exact hv2
  · rw [← hshA.1]
    exact hget

/-- Witness for C1 on the spec's scenario: move `color-base` and
`color-alias` together; the new alias points at the new shell. -/
theorem C1_intra_move_alias_witness :
    ∃ shellA, assocGet (executeMove sampleOracle sampleDoc sampleTokens []
        [sampleA, sampleB]).idMapping sampleA.id = some shellA
      ∧ shellA.id = sampleOracle.newIdOf sampleA.id
      ∧ sampleOracle.newIdOf sampleA.id ≠ sampleA.id
      ∧ ∃ vals, (executeMove sampleOracle sampleDoc sampleTokens []
            [sampleA, sampleB]).doc.valsOf (sampleOracle.newIdOf sampleB.id) = some vals
          ∧ assocGet vals (Mode.mk "t1" "Light").modeId
            = some (Value.varAlias (sampleOracle.newIdOf sampleA.id)) :=
  C1_intra_move_alias sampleOracle sampleDoc sampleTokens [] [sampleA, sampleB]
    sampleA sampleB 0 "m1" (Mode.mk "t1" "Light")
    (List.mem_cons_self _ _) (List.mem_cons_of_mem _ (List.mem_cons_self _ _))
    rfl rfl rfl (by decide) (by decide) (by decide) (by decide) (by decide) (by decide)
    rfl rfl

/-- The six validation error messages of the `move-variables` handler. -/
def validationMessages : List String :=
  ["Please select both collections before moving.",
   "You cannot move variables to the same collection.",
   "Please select at least one variable to move.",
   "Collection not found. It may have been deleted.",
   "The selected variables could not be found.",
   "All selected variables already exist in the destination."]

theorem onMoveVariables_shape (o : Oracle) (doc : Doc) (msg : MoveMsg) :
    (∃ n m, onMoveVariables o doc msg = errorResult doc n m ∧ m ∈ validationMessages)
    ∨ (∃ dcoll dups safe, onMoveVariables o doc msg = executeMove o doc dcoll dups safe) := by
  simp only [onMoveVariables]
  by_cases h1 : (msg.sourceCollectionId == "" || msg.destinationCollectionId == "") = true
  · rw [if_pos h1]
    exact Or.inl ⟨_, _, rfl, by simp [validationMessages]⟩
  · rw [if_neg h1]
    by_cases h2 : (msg.sourceCollectionId == msg.destinationCollectionId) = true
    · rw [if_pos h2]
      exact Or.inl ⟨_, _, rfl, by simp [validationMessages]⟩
    · rw [if_neg h2]
      by_cases h3 : ((msg.selectedVariableIds.getD []).length == 0) = true
      · rw [if_pos h3]
        exact Or.inl ⟨_, _, rfl, by simp [validationMessages]⟩
      · rw [if_neg h3]
        split
        · by_cases h5 : (((getVariablesInCollection doc msg.sourceCollectionId).filter
              (fun v => (msg.selectedVariableIds.getD []).contains v.id)).length == 0)
              = true
          · rw [if_pos h5]
            exact Or.inl ⟨_, _, rfl, by simp [validationMessages]⟩
          · rw [if_neg h5]
            by_cases h6 : ((findDuplicateNames
                ((getVariablesInCollection doc msg.sourceCollectionId).filter
                  (fun v => (msg.selectedVariableIds.getD []).contains v.id))
                (getVariableNamesInCollection doc
                  msg.destinationCollectionId)).canMove.length == 0) = true
            · rw [if_pos h6]
              exact Or.inl ⟨_, _, rfl, by simp [validationMessages]⟩
            · rw [if_neg h6]
              exact Or.inr ⟨_, _, _, rfl⟩
        · exact Or.inl ⟨_, _, rfl, by simp [validationMessages]⟩

/-- C5: every validation failure of `move-variables` returns an error
message drawn from the six listed messages and leaves the document
untouched, with exactly one notification; the six messages are pairwise
distinct; and the individual checks fire in source order — in
particular a request with identical source and destination collections
yields the same-collection error with zero mutations. -/
theorem C5_validation (o : Oracle) (doc : Doc) (msg : MoveMsg) :
    (∀ m', (onMoveVariables o doc msg).messages = [UIMessage.moveError m'] →
      (onMoveVariables o doc msg).doc = doc
      ∧ m' ∈ validationMessages
      ∧ (onMoveVariables o doc msg).notifications.length = 1)
    ∧ validationMessages.Nodup
    ∧ (msg.sourceCollectionId = "" ∨ msg.destinationCollectionId = "" →
        onMoveVariables o doc msg = errorResult doc
          "Please select both source and destination collections!"
          "Please select both collections before moving.")
    ∧ (msg.sourceCollectionId ≠ "" →
        msg.sourceCollectionId = msg.destinationCollectionId →
        onMoveVariables o doc msg = errorResult doc
          "Source and destination cannot be the same!"
          "You cannot move variables to the same collection.")
    ∧ (msg.sourceCollectionId ≠ "" → msg.destinationCollectionId ≠ "" →
        msg.sourceCollectionId ≠ msg.destinationCollectionId →
        msg.selectedVariableIds.getD [] = [] →
        onMoveVariables o doc msg = errorResult doc "No variables selected!"
          "Please select at least one variable to move.")
    ∧ (msg.sourceCollectionId ≠ "" → msg.destinationCollectionId ≠ "" →
        msg.sourceCollectionId ≠ msg.destinationCollectionId →
        msg.selectedVariableIds.getD [] ≠ [] →
        doc.getCollectionById msg.sourceCollectionId = none ∨
          doc.getCollectionById msg.destinationCollectionId = none →
        onMoveVariables o doc msg = errorResult doc
          "One of the collections no longer exists!"
          "Collection not found. It may have been deleted.") := by
  refine ⟨?_, by decide, ?_, ?_, ?_, ?_⟩
  · intro m' hm
    rcases onMoveVariables_shape o doc msg with ⟨n, m, heq, hmem⟩ | ⟨dcoll, dups, safe, heq⟩
    · rw [heq] at hm ⊢
      have : m = m' := by
        have := List.head_eq_of_cons_eq hm
        exact UIMessage.moveError.inj this
      exact ⟨rfl, this ▸ hmem, rfl⟩
    · rw [heq] at hm
      simp only [executeMove] at hm
      cases hm
  · intro h
    have h1 : (msg.sourceCollectionId == "" || msg.destinationCollectionId == "") = true := by
      rcases h with h | h <;> simp [h]
    simp only [onMoveVariables]
    rw [if_pos h1]
  · intro hs he
    have h1 : (msg.sourceCollectionId == "" || msg.destinationCollectionId == "") = false := by
      have hd : msg.destinationCollectionId ≠ "" := by rw [← he]; exact hs
      simp [hs, hd]
    have h2 : (msg.sourceCollectionId == msg.destinationCollectionId) = true := by
      simp [he]
    simp only [onMoveVariables]
    rw [if_neg (by rw [h1]; exact fun hc => Bool.false_ne_true hc), if_pos h2]
  · intro hs hd hne hsel
    have h1 : (msg.sourceCollectionId == "" || msg.destinationCollectionId == "") = false := by
      simp [hs, hd]
    have h2 : (msg.sourceCollectionId == msg.destinationCollectionId) = false := by
      simp [hne]
    have h3 : ((msg.selectedVariableIds.getD []).length == 0) = true := by
      rw [hsel]
      rfl
    simp only [onMoveVariables]
    rw [if_neg (by rw [h1]; exact fun hc => Bool.false_ne_true hc),
      if_neg (by rw [h2]; exact fun hc => Bool.false_ne_true hc), if_pos h3]
  · intro hs hd hne hsel hcoll
    have h1 : (msg.sourceCollectionId == "" || msg.destinationCollectionId == "") = false := by
      simp [hs, hd]
    have h2 : (msg.sourceCollectionId == msg.destinationCollectionId) = false := by
      simp [hne]
    have h3 : ((msg.selectedVariableIds.getD []).length == 0) = false := by
      simp [hsel]
    simp only [onMoveVariables]
    rw [if_neg (by rw [h1]; exact fun hc => Bool.false_ne_true hc),
      if_neg (by rw [h2]; exact fun hc => Bool.false_ne_true hc),
      if_neg (by rw [h3]; exact fun hc => Bool.false_ne_true hc)]
    rcases hcoll with hc | hc
    · rw [hc]
    · rw [hc]
      cases doc.getCollectionById msg.sourceCollectionId <;> rfl

/-- Witness for C5: the same-collection request on the sample document
errors out with the document unchanged. -/
theorem C5_validation_witness :
    onMoveVariables sampleOracle sampleDoc ⟨"brand", "brand", some ["A"]⟩
      = errorResult sampleDoc "Source and destination cannot be the same!"
        "You cannot move variables to the same collection." :=
  (C5_validation sampleOracle sampleDoc ⟨"brand", "brand", some ["A"]⟩).2.2.2.1
    (by decide) rfl

/-- C10: a `move-variables` request with no `selectedVariableIds` field
is treated exactly as an empty selection: with the collection checks
passing, the handler returns the empty-selection error response and
mutates nothing. -/
theorem C10_absent_selection (o : Oracle) (doc : Doc) (msg : MoveMsg)
    (hnone : msg.selectedVariableIds = none)
    (hs : msg.sourceCollectionId ≠ "") (hd : msg.destinationCollectionId ≠ "")
    (hne : msg.sourceCollectionId ≠ msg.destinationCollectionId) :
    onMoveVariables o doc msg = errorResult doc "No variables selected!"
      "Please select at least one variable to move."
    ∧ (onMoveVariables o doc msg).doc = doc := by
  have h1 : (msg.sourceCollectionId == "" || msg.destinationCollectionId == "") = false := by
    simp [hs, hd]
  have h2 : (msg.sourceCollectionId == msg.destinationCollectionId) = false := by
    simp [hne]
  have h3 : ((msg.selectedVariableIds.getD []).length == 0) = true := by
    rw [hnone]
    rfl
  have hres : onMoveVariables o doc msg = errorResult doc "No variables selected!"
      "Please select at least one variable to move." := by
    simp only [onMoveVariables]
    rw [if_neg (by rw [h1]; exact fun hc => Bool.false_ne_true hc),
      if_neg (by rw [h2]; exact fun hc => Bool.false_ne_true hc), if_pos h3]
  exact ⟨hres, by rw [hres]; rfl⟩

/-- Witness for C10: a request missing its selection field on the sample
document. -/
theorem C10_absent_selection_witness :
    onMoveVariables sampleOracle sampleDoc ⟨"brand", "tokens", none⟩
      = errorResult sampleDoc "No variables selected!"
        "Please select at least one variable to move." :=
  (C10_absent_selection sampleOracle sampleDoc ⟨"brand", "tokens", none⟩
    rfl (by decide) (by decide) (by decide)).1

end VariableMover
